import Mathlib

/-!
Verification of the curling-simulator physics and rules engine.

The definitions below are a shallow embedding of the TypeScript sources:

  * `src/src/utils/constants.ts` — sheet geometry and stone constants;
  * `src/src/physics/types.ts` — data model and tuning constants;
  * ice model (`mu`, `computeIceForces`, `spinDecay`);
  * integrator (`integrateStone` is the loop body of `stepPhysics`);
  * `src/src/physics/collisions.ts` — `resolveCollisions` and friends;
  * rules (`applyRules`, `checkHogLineViolation`, `scoreEnd`);
  * `src/src/physics/world.ts` — `PhysicsWorld`;
  * game controller (`GameController`) and headless driver (`HeadlessGame`).

JavaScript numbers are modelled as real numbers; in-place mutation of the
stone array is modelled by explicit state passing.  The `while`
accumulator loop of `PhysicsWorld.update` runs its body exactly
`Nat.floor (accumulator / PHYSICS_DT)` times (the accumulator is capped at
0.2 and decreases by `PHYSICS_DT` each iteration), so it is embedded as a
`Function.iterate` of that count.
-/

namespace CurlingSim

noncomputable section

open Classical

/-! ## Constants (src/src/utils/constants.ts) -/

/-- One foot in meters. -/
def FT : ℝ := 0.3048

def SHEET_LENGTH : ℝ := 150 * FT

def SHEET_WIDTH : ℝ := 15.5 * FT

/-- Distance of the tee line from the sheet centre. -/
def TEE_Z : ℝ := 57 * FT

/-- Hog line (toward centre). -/
def HOG_Z : ℝ := TEE_Z - 21 * FT

/-- Back line (behind tee). -/
def BACK_LINE_Z : ℝ := TEE_Z + 6 * FT

/-- Hack (behind tee). -/
def HACK_Z : ℝ := TEE_Z + 12 * FT

def STONE_RADIUS : ℝ := 0.145

def STONE_MASS : ℝ := 19.96

/-! ## Data model and tuning constants (src/src/physics/types.ts) -/

/-- The two teams. -/
inductive Team where
  | red
  | yellow
deriving DecidableEq, Repr

/-- Planar vector (the sheet is the XZ plane). -/
structure Vec2 where
  x : ℝ
  z : ℝ

/-- One curling stone.  `omega` is the angular velocity (positive =
clockwise from above), `angle` the cumulative rotation for rendering,
`deliveryIndex` the index in the delivery order of the end. -/
structure StoneState where
  pos : Vec2
  vel : Vec2
  omega : ℝ
  angle : ℝ
  team : Team
  inPlay : Bool
  deliveryIndex : ℕ

/-- Sheet-wide friction/curl tuning. -/
structure IceParams where
  mu0 : ℝ
  muMax : ℝ
  curlCoeff : ℝ
  kSpin : ℝ
  sweepMuFactor : ℝ
  sweepCurlFactor : ℝ

/-- Player/agent input for one delivery. -/
structure ShotRelease where
  x : ℝ
  z : ℝ
  speed : ℝ
  angle : ℝ
  omega : ℝ

def DEFAULT_ICE_PARAMS : IceParams :=
  { mu0 := 0.008
    muMax := 0.06
    curlCoeff := 0.028
    kSpin := 0.00008
    sweepMuFactor := 0.78
    sweepCurlFactor := 0.45 }

def PHYSICS_DT : ℝ := 1 / 120

def GRAVITY : ℝ := 9.81

def SETTLE_VEL_THRESHOLD : ℝ := 0.003

def SETTLE_OMEGA_THRESHOLD : ℝ := 0.01

def COLLISION_RESTITUTION : ℝ := 0.85

def COLLISION_TANGENTIAL_FRICTION : ℝ := 0.3

/-! ## Ice force model -/

/-- Euclidean length of a planar vector. -/
def vecLen (v : Vec2) : ℝ := Real.sqrt (v.x * v.x + v.z * v.z)

/-- Velocity-dependent kinetic friction coefficient:
`mu(v) = mu0 * v^(-0.5)` clamped to `muMax`, floored at low speed. -/
def mu (speed : ℝ) (ice : IceParams) (sweeping : Bool) : ℝ :=
  let baseMu :=
    if speed > 0.01 then min (ice.mu0 * Real.rpow speed (-0.5)) ice.muMax
    else ice.muMax
  if sweeping then baseMu * ice.sweepMuFactor else baseMu

/-- Spin decay torque: angular deceleration opposing the current spin
direction, faster when the stone is slower. -/
def spinDecay (omega : ℝ) (speed : ℝ) (ice : IceParams) : ℝ :=
  if |omega| < 0.001 then 0
  else
    -ice.kSpin * Real.sign omega * (1.0 + 2.0 / (1.0 + speed)) * STONE_MASS * GRAVITY

/-- Result of the ice force model: linear acceleration in XZ and angular
acceleration. -/
structure IceForces where
  ax : ℝ
  az : ℝ
  alphaOmega : ℝ

/-- Acceleration of a stone on ice: longitudinal friction opposing the
velocity, curl perpendicular to the velocity when the spin is
significant, and spin decay. -/
def computeIceForces (stone : StoneState) (ice : IceParams) (sweeping : Bool) :
    IceForces :=
  let speed := vecLen stone.vel
  if speed < 0.0005 then
    { ax := 0, az := 0, alphaOmega := spinDecay stone.omega speed ice }
  else
    let vHatX := stone.vel.x / speed
    let vHatZ := stone.vel.z / speed
    let frictionMu := mu speed ice sweeping
    let frictionAccel := frictionMu * GRAVITY
    let ax0 := -frictionAccel * vHatX
    let az0 := -frictionAccel * vHatZ
    let hasSignificantSpin := |stone.omega| > 0.05
    let ax1 :=
      if hasSignificantSpin then
        let curlCoeff :=
          if sweeping then ice.curlCoeff * ice.sweepCurlFactor else ice.curlCoeff
        let curlMagnitude := curlCoeff * min (1.0 / speed) 8.0
        let spinSign := Real.sign stone.omega
        let omegaFactor := min (|stone.omega| / 0.3) 1.0
        ax0 + -spinSign * curlMagnitude * omegaFactor * vHatZ
      else ax0
    let az1 :=
      if hasSignificantSpin then
        let curlCoeff :=
          if sweeping then ice.curlCoeff * ice.sweepCurlFactor else ice.curlCoeff
        let curlMagnitude := curlCoeff * min (1.0 / speed) 8.0
        let spinSign := Real.sign stone.omega
        let omegaFactor := min (|stone.omega| / 0.3) 1.0
        az0 + -spinSign * curlMagnitude * omegaFactor * (-vHatX)
      else az0
    { ax := ax1, az := az1, alphaOmega := spinDecay stone.omega speed ice }

/-! ## Integrator -/

/-- The loop body of `stepPhysics` for one stone: settle-clamp, force
integration (semi-implicit Euler), anti-overshoot correction, position
update and spin clamp.  Out-of-play stones are skipped entirely. -/
def integrateStone (ice : IceParams) (sweeping : Bool) (s : StoneState) :
    StoneState :=
  if s.inPlay then
    let dt := PHYSICS_DT
    let speed := Real.sqrt (s.vel.x * s.vel.x + s.vel.z * s.vel.z)
    if speed < SETTLE_VEL_THRESHOLD ∧ |s.omega| < SETTLE_OMEGA_THRESHOLD then
      { s with vel := ⟨0, 0⟩, omega := 0 }
    else
      let f := computeIceForces s ice sweeping
      let vel1 : Vec2 := ⟨s.vel.x + f.ax * dt, s.vel.z + f.az * dt⟩
      let omega1 := s.omega + f.alphaOmega * dt
      let newSpeed := Real.sqrt (vel1.x * vel1.x + vel1.z * vel1.z)
      let vel2 : Vec2 :=
        if speed > SETTLE_VEL_THRESHOLD ∧ newSpeed > speed * 1.5 then ⟨0, 0⟩
        else vel1
      let vel3 : Vec2 :=
        if speed > SETTLE_VEL_THRESHOLD ∧
            vel2.x * (vel2.x - f.ax * dt) + vel2.z * (vel2.z - f.az * dt) < 0 then
          ⟨0, 0⟩
        else vel2
      let pos1 : Vec2 := ⟨s.pos.x + vel3.x * dt, s.pos.z + vel3.z * dt⟩
      let angle1 := s.angle + omega1 * dt
      let omega2 :=
        if omega1 ≠ 0 ∧ |omega1| < SETTLE_OMEGA_THRESHOLD then 0 else omega1
      { s with pos := pos1, vel := vel3, omega := omega2, angle := angle1 }
  else s

/-! ## Collision resolver (src/src/physics/collisions.ts) -/

def CONTACT_DIST : ℝ := STONE_RADIUS * 2

def POSITIONAL_SLOP : ℝ := 0.001

def POSITIONAL_CORRECTION_FACTOR : ℝ := 0.8

/-- Push an overlapping pair apart along the contact normal. -/
def positionalCorrection (a b : StoneState) (dist nx nz : ℝ) :
    StoneState × StoneState :=
  let overlap := CONTACT_DIST - dist
  if overlap ≤ POSITIONAL_SLOP then (a, b)
  else
    let correction := (overlap - POSITIONAL_SLOP) * POSITIONAL_CORRECTION_FACTOR / 2
    ({ a with pos := ⟨a.pos.x - correction * nx, a.pos.z - correction * nz⟩ },
     { b with pos := ⟨b.pos.x + correction * nx, b.pos.z + correction * nz⟩ })

/-- Resolve one stone-stone contact: equal-mass normal impulse with
restitution, clamped tangential impulse with spin transfer, and
positional correction. -/
def resolveStoneStone (a b : StoneState) : StoneState × StoneState :=
  let dx := b.pos.x - a.pos.x
  let dz := b.pos.z - a.pos.z
  let dist := Real.sqrt (dx * dx + dz * dz)
  if dist ≥ CONTACT_DIST ∨ dist < 1e-8 then (a, b)
  else
    let nx := dx / dist
    let nz := dz / dist
    let dvx := b.vel.x - a.vel.x
    let dvz := b.vel.z - a.vel.z
    let relVelNormal := dvx * nx + dvz * nz
    if relVelNormal > 0 then positionalCorrection a b dist nx nz
    else
      let e := COLLISION_RESTITUTION
      let jNormal := (-(1 + e) * relVelNormal) / (1 / STONE_MASS + 1 / STONE_MASS)
      let a1 := { a with
        vel := ⟨a.vel.x - jNormal / STONE_MASS * nx, a.vel.z - jNormal / STONE_MASS * nz⟩ }
      let b1 := { b with
        vel := ⟨b.vel.x + jNormal / STONE_MASS * nx, b.vel.z + jNormal / STONE_MASS * nz⟩ }
      let tx := -nz
      let tz := nx
      let relVelTangent := dvx * tx + dvz * tz
      let surfaceVelA := a.omega * STONE_RADIUS
      let surfaceVelB := -b.omega * STONE_RADIUS
      let totalTangentVel := relVelTangent + surfaceVelA + surfaceVelB
      let jTangentMax := |jNormal| * COLLISION_TANGENTIAL_FRICTION
      let jTangent :=
        max (-jTangentMax) (min jTangentMax (-totalTangentVel * STONE_MASS * 0.5))
      let inertia := 0.5 * STONE_MASS * STONE_RADIUS * STONE_RADIUS
      let a2 := { a1 with
        vel := ⟨a1.vel.x - jTangent / STONE_MASS * tx, a1.vel.z - jTangent / STONE_MASS * tz⟩
        omega := a1.omega + jTangent * STONE_RADIUS / inertia }
      let b2 := { b1 with
        vel := ⟨b1.vel.x + jTangent / STONE_MASS * tx, b1.vel.z + jTangent / STONE_MASS * tz⟩
        omega := b1.omega - jTangent * STONE_RADIUS / inertia }
      positionalCorrection a2 b2 dist nx nz

/-- Side-wall contact disqualifies the stone (no bounce). -/
def resolveWall (s : StoneState) (halfWidth : ℝ) : StoneState :=
  if s.pos.x - STONE_RADIUS < -halfWidth ∨ s.pos.x + STONE_RADIUS > halfWidth then
    { s with inPlay := false }
  else s

/-- Indices of the in-play stones, in order (the `active` array of the
source holds references into the stone array; mutating through it is
mutating the stones at these indices). -/
def activeIndices (stones : List StoneState) : List ℕ :=
  (List.range stones.length).filter fun i =>
    ((stones[i]?).map StoneState.inPlay).getD false

/-- All ordered pairs `(i, j)` with `i` before `j` in the list, in the
iteration order of the double loop of the source. -/
def pairsOf : List ℕ → List (ℕ × ℕ)
  | [] => []
  | i :: rest => (rest.map fun j => (i, j)) ++ pairsOf rest

/-- Resolve the stone-stone contact between the stones at one index pair,
writing both results back. -/
def resolvePairAt (stones : List StoneState) (ij : ℕ × ℕ) : List StoneState :=
  match stones[ij.1]?, stones[ij.2]? with
  | some a, some b =>
    let r := resolveStoneStone a b
    (stones.set ij.1 r.1).set ij.2 r.2
  | _, _ => stones

/-- Apply `resolveWall` at one index. -/
def wallAt (stones : List StoneState) (i : ℕ) : List StoneState :=
  match stones[i]? with
  | some s => stones.set i (resolveWall s (SHEET_WIDTH / 2))
  | none => stones

/-- Detect and resolve all stone-stone and stone-wall collisions: every
unordered pair of in-play stones, then the side walls for every
in-play stone. -/
def resolveCollisions (stones : List StoneState) : List StoneState :=
  let act := activeIndices stones
  let afterPairs := (pairsOf act).foldl resolvePairAt stones
  act.foldl wallAt afterPairs

/-- Advance one physics step (semi-implicit Euler): integrate every stone,
then resolve collisions once. -/
def stepPhysics (stones : List StoneState) (ice : IceParams) (sweeping : Bool) :
    List StoneState :=
  resolveCollisions (stones.map (integrateStone ice sweeping))

/-! ## Rules engine -/

def HALF_WIDTH : ℝ := SHEET_WIDTH / 2

/-- Out-of-play rules applied after each step: side boards (generous
margin) and the back line behind the target house.  The second parameter
(the delivered-stone index) is unused, as in the source. -/
def applyRules (stones : List StoneState) (_deliveredStoneIndex : ℤ)
    (targetEnd : ℤ) : List StoneState :=
  let backLine := (targetEnd : ℝ) * BACK_LINE_Z
  stones.map fun s =>
    if s.inPlay then
      if |s.pos.x| > HALF_WIDTH + STONE_RADIUS * 2 then { s with inPlay := false }
      else if targetEnd = -1 ∧ s.pos.z < backLine - STONE_RADIUS then
        { s with inPlay := false }
      else if targetEnd = 1 ∧ s.pos.z > backLine + STONE_RADIUS then
        { s with inPlay := false }
      else s
    else s

/-- Hog line violation for a delivered stone that has come to rest: per the
source comment, a stone must fully cross the far hog line to be in play.
Playing toward negative Z (`targetEnd = -1`) the violation condition is
`pos.z + STONE_RADIUS > -HOG_Z`: the trailing edge of the stone is short
of the line. -/
def checkHogLineViolation (stone : StoneState) (targetEnd : ℤ) : Prop :=
  let hogLine := (targetEnd : ℝ) * HOG_Z
  if targetEnd = -1 then stone.pos.z + STONE_RADIUS > hogLine
  else stone.pos.z - STONE_RADIUS < hogLine

/-- Result of scoring an end. -/
structure EndScore where
  red : ℕ
  yellow : ℕ
  winner : Option Team
deriving DecidableEq, Repr

/-- The tee (button centre) of the target house. -/
def teeOf (targetEnd : ℤ) : Vec2 := ⟨0, (targetEnd : ℝ) * TEE_Z⟩

/-- Euclidean distance from a stone to the button. -/
def distToTee (tee : Vec2) (s : StoneState) : ℝ :=
  Real.sqrt ((s.pos.x - tee.x) ^ 2 + (s.pos.z - tee.z) ^ 2)

/-- `d < cutoff` where a missing cutoff is `Infinity` (every distance is
below it), as in the source. -/
def ltCutoffB (d : ℝ) (cutoff : Option ℝ) : Bool :=
  match cutoff with
  | some c => decide (d < c)
  | none => true

/-- Score an end: only the team with the stone closest to the button
scores, one point per stone closer than the closest opposing stone,
counted in ascending-distance order until the run breaks. -/
def scoreEnd (stones : List StoneState) (targetEnd : ℤ) : EndScore :=
  let tee := teeOf targetEnd
  let inPlayStones := stones.filter (fun s => s.inPlay)
  if inPlayStones.isEmpty then { red := 0, yellow := 0, winner := none }
  else
    let withDist := inPlayStones.map fun s => (s.team, distToTee tee s)
    let sorted := withDist.mergeSort fun a b => decide (a.2 ≤ b.2)
    match sorted with
    | [] => { red := 0, yellow := 0, winner := none }
    | first :: rest =>
      let closestTeam := first.1
      let otherTeam := if closestTeam = Team.red then Team.yellow else Team.red
      let closestOther := (first :: rest).find? fun s => decide (s.1 = otherTeam)
      let cutoff := closestOther.map fun s => s.2
      let score := ((first :: rest).takeWhile fun s =>
        decide (s.1 = closestTeam) && ltCutoffB s.2 cutoff).length
      { red := if closestTeam = Team.red then score else 0
        yellow := if closestTeam = Team.yellow then score else 0
        winner := some closestTeam }

/-! ## Simulation world (src/src/physics/world.ts) -/

structure PhysicsWorld where
  stones : List StoneState
  ice : IceParams
  sweeping : Bool
  targetEnd : ℤ
  deliveredStoneIndex : ℤ
  accumulator : ℝ

/-- True while any stone has non-negligible velocity or spin. -/
def PhysicsWorld.isSimulating (w : PhysicsWorld) : Prop :=
  ∃ s ∈ w.stones, s.inPlay = true ∧
    (|s.vel.x| > 0.001 ∨ |s.vel.z| > 0.001 ∨ |s.omega| > 0.01)

/-- Deliver a new stone onto the sheet: it starts at the hack of the
delivery side and is given the release velocity and spin.  The release
field `z` is not read. -/
def PhysicsWorld.deliverStone (w : PhysicsWorld) (team : Team)
    (release : ShotRelease) (deliveryIndex : ℕ) : PhysicsWorld :=
  let hackZ := if w.targetEnd = -1 then HACK_Z else -HACK_Z
  let stone : StoneState :=
    { pos := ⟨release.x, hackZ⟩
      vel := ⟨-(w.targetEnd : ℝ) * Real.sin release.angle * release.speed,
              (w.targetEnd : ℝ) * Real.cos release.angle * release.speed⟩
      omega := release.omega
      angle := 0
      team := team
      inPlay := true
      deliveryIndex := deliveryIndex }
  { w with stones := w.stones ++ [stone],
           deliveredStoneIndex := (w.stones.length : ℤ) }

/-- The accumulator after adding the elapsed time and applying the
0.2-second cap. -/
def PhysicsWorld.cappedAcc (w : PhysicsWorld) (elapsedSec : ℝ) : ℝ :=
  let acc := w.accumulator + elapsedSec
  if acc > 0.2 then 0.2 else acc

/-- Number of iterations of the fixed-step loop of `update`: the loop
body runs while the accumulator is at least `PHYSICS_DT` and subtracts
`PHYSICS_DT` each time, so it runs `Nat.floor (acc / PHYSICS_DT)` times. -/
def PhysicsWorld.subStepCount (w : PhysicsWorld) (elapsedSec : ℝ) : ℕ :=
  ⌊w.cappedAcc elapsedSec / PHYSICS_DT⌋₊

/-- One iteration of the fixed-step loop: physics step then rules. -/
def stepOnce (ice : IceParams) (sweeping : Bool) (deliveredStoneIndex : ℤ)
    (targetEnd : ℤ) (stones : List StoneState) : List StoneState :=
  applyRules (stepPhysics stones ice sweeping) deliveredStoneIndex targetEnd

/-- The end-of-motion hog line check of `update`: if a delivered stone is
tracked, still in play, and violates the hog line, it is marked out of
play. -/
def hogCheck (stones : List StoneState) (deliveredStoneIndex : ℤ)
    (targetEnd : ℤ) : List StoneState :=
  if 0 ≤ deliveredStoneIndex then
    match stones[deliveredStoneIndex.toNat]? with
    | some delivered =>
      if delivered.inPlay ∧ checkHogLineViolation delivered targetEnd then
        stones.set deliveredStoneIndex.toNat { delivered with inPlay := false }
      else stones
    | none => stones
  else stones

/-- Advance physics by the given elapsed time using the fixed-step
accumulator.  Returns `true` while the simulation is still active; on
settling it performs the hog line check on the delivered stone and stops
tracking it. -/
def PhysicsWorld.update (w : PhysicsWorld) (elapsedSec : ℝ) :
    Bool × PhysicsWorld :=
  let n := w.subStepCount elapsedSec
  let stones1 :=
    (stepOnce w.ice w.sweeping w.deliveredStoneIndex w.targetEnd)^[n] w.stones
  let w1 : PhysicsWorld :=
    { w with stones := stones1,
             accumulator := w.cappedAcc elapsedSec - n * PHYSICS_DT }
  if w1.isSimulating then (true, w1)
  else
    (false, { w1 with
      stones := hogCheck w1.stones w.deliveredStoneIndex w.targetEnd,
      deliveredStoneIndex := -1 })

/-- Score the current end. -/
def PhysicsWorld.score (w : PhysicsWorld) : EndScore :=
  scoreEnd w.stones w.targetEnd

/-! ## Game controller -/

inductive GamePhase where
  | AIMING
  | DELIVERING
  | SETTLING
  | END_SCORE
  | GAME_OVER
deriving DecidableEq, Repr

/-- Rendering of a phase, for the headless error message. -/
def phaseName : GamePhase → String
  | GamePhase.AIMING => "AIMING"
  | GamePhase.DELIVERING => "DELIVERING"
  | GamePhase.SETTLING => "SETTLING"
  | GamePhase.END_SCORE => "END_SCORE"
  | GamePhase.GAME_OVER => "GAME_OVER"

/-- A per-team score pair. -/
structure Score where
  red : ℕ
  yellow : ℕ
deriving DecidableEq, Repr

/-- The turn-based state machine layered on the physics world. -/
structure GameController where
  phase : GamePhase
  world : PhysicsWorld
  scoreHistory : List Score
  totalScore : Score
  currentEnd : ℕ
  hammerTeam : Team
  deliveryCount : ℕ

/-- Which team is currently delivering: the non-hammer team throws the
even-numbered deliveries. -/
def GameController.currentTeam (c : GameController) : Team :=
  let firstTeam := if c.hammerTeam = Team.red then Team.yellow else Team.red
  if c.deliveryCount % 2 = 0 then firstTeam else c.hammerTeam

/-- Real-time delivery entry point: outside the `AIMING` phase it is a
silent no-op. -/
def GameController.throwStone (c : GameController) (release : ShotRelease) :
    GameController :=
  if c.phase ≠ GamePhase.AIMING then c
  else
    { c with
      world := c.world.deliverStone c.currentTeam release c.deliveryCount
      deliveryCount := c.deliveryCount + 1
      phase := GamePhase.DELIVERING }

/-! ## Headless driver (src/src/physics/headless.ts) -/

/-- One stone of the compact board snapshot. -/
structure BoardStone where
  pos : Vec2
  team : Team
  inPlay : Bool
  deliveryIndex : ℕ

/-- Compact board snapshot for external consumers. -/
structure BoardState where
  stones : List BoardStone
  currentTeam : Team
  score : Score
  currentEnd : ℕ
  deliveryCount : ℕ

/-- Result of a headless delivery. -/
structure ThrowResult where
  steps : ℕ
  finalState : BoardState
  score : Option EndScore

/-- The compact board snapshot of the controller state. -/
def getState (c : GameController) : BoardState :=
  { stones := c.world.stones.map fun s =>
      { pos := s.pos, team := s.team, inPlay := s.inPlay,
        deliveryIndex := s.deliveryIndex }
    currentTeam := c.currentTeam
    score := c.totalScore
    currentEnd := c.currentEnd
    deliveryCount := c.deliveryCount }

/-- The headless game driver: a `GameController` run without a real-time
loop. -/
structure HeadlessGame where
  controller : GameController

/-- Modelled from the spec: `PhysicsWorld.runUntilSettled` is called by
the headless driver but its definition is not among the provided source
files.  Per the spec it "repeatedly advances the World by a fixed
large-enough step until no stone is moving" and yields the number of
physics steps taken.  Each iteration advances the world by exactly one
`PHYSICS_DT` (so one fixed sub-step per iteration) and the iteration count
is returned; the extra `fuel` argument bounds the recursion, making the
otherwise unbounded loop total. -/
def PhysicsWorld.runUntilSettled (w : PhysicsWorld) : ℕ → ℕ × PhysicsWorld
  | 0 => (0, w)
  | fuel + 1 =>
    let r := w.update PHYSICS_DT
    if r.1 then
      let rest := r.2.runUntilSettled fuel
      (rest.1 + 1, rest.2)
    else (1, r.2)

/-- Deliver a stone and run the simulation until it settles, then apply
the same phase-transition logic as the real-time controller update.
Outside the `AIMING` phase the call fails with an error instead of being
silently ignored.  `fuel` bounds the settling loop (see
`PhysicsWorld.runUntilSettled`). -/
def HeadlessGame.throwAndSettle (g : HeadlessGame) (release : ShotRelease)
    (fuel : ℕ) : Except String (ThrowResult × HeadlessGame) :=
  if g.controller.phase ≠ GamePhase.AIMING then
    Except.error ("Cannot throw stone in phase: " ++ phaseName g.controller.phase)
  else
    let c1 := g.controller.throwStone release
    let r := c1.world.runUntilSettled fuel
    let c2 := { c1 with world := r.2 }
    let c3 :=
      if ¬ c2.world.isSimulating then
        if 16 ≤ c2.deliveryCount then
          let result := c2.world.score
          let scored := { c2 with
            scoreHistory := c2.scoreHistory ++ [(⟨result.red, result.yellow⟩ : Score)]
            totalScore := ⟨c2.totalScore.red + result.red,
                           c2.totalScore.yellow + result.yellow⟩
            hammerTeam :=
              match result.winner with
              | some Team.red => Team.yellow
              | some Team.yellow => Team.red
              | none => c2.hammerTeam }
          if 2 ≤ scored.currentEnd then { scored with phase := GamePhase.GAME_OVER }
          else { scored with phase := GamePhase.END_SCORE }
        else { c2 with phase := GamePhase.AIMING }
      else c2
    let result : ThrowResult :=
      { steps := r.1
        finalState := getState c3
        score :=
          if c3.phase = GamePhase.END_SCORE ∨ c3.phase = GamePhase.GAME_OVER then
            some c3.world.score
          else none }
    Except.ok (result, ⟨c3⟩)

/-- Read one team's points off an `EndScore`. -/
def scoreOfTeam (e : EndScore) : Team → ℕ
  | Team.red => e.red
  | Team.yellow => e.yellow

/-- The opponent of a team. -/
def oppositeTeam : Team → Team
  | Team.red => Team.yellow
  | Team.yellow => Team.red

/-- The running count taken by `scoreEnd` over the sorted distance list:
leading stones of the closest team strictly below the cutoff set by the
first stone of the other team.  (Abbreviation for the body of
`scoreEnd`, used to state its evaluation lemma.) -/
def prefixScore (l : List (Team × ℝ)) (closestTeam : Team) : ℕ :=
  (l.takeWhile fun s => decide (s.1 = closestTeam) &&
    ltCutoffB s.2 ((l.find? fun s =>
      decide (s.1 = if closestTeam = Team.red then Team.yellow else Team.red)).map
      fun s => s.2)).length

/-! ## Concrete inputs used by the witnesses and counterexamples -/

/-- A fresh world with no stones, playing toward the negative-Z house. -/
def emptyWorld : PhysicsWorld :=
  { stones := [], ice := DEFAULT_ICE_PARAMS, sweeping := false, targetEnd := -1,
    deliveredStoneIndex := -1, accumulator := 0 }

/-- A controller that is not in the `AIMING` phase. -/
def deliveringController : GameController :=
  { phase := GamePhase.DELIVERING, world := emptyWorld, scoreHistory := [],
    totalScore := ⟨0, 0⟩, currentEnd := 1, hammerTeam := Team.yellow,
    deliveryCount := 0 }

/-- A generic concrete release. -/
def releaseA : ShotRelease := { x := 0.1, z := 5, speed := 2, angle := 0, omega := 1 }

/-- `releaseA` with only the `z` field changed. -/
def releaseB : ShotRelease := { x := 0.1, z := -5, speed := 2, angle := 0, omega := 1 }

/-- A stone that is already out of play, with residual state. -/
def outStone : StoneState :=
  { pos := ⟨0.4, 1⟩, vel := ⟨1, 1⟩, omega := 2, angle := 0.5, team := Team.red,
    inPlay := false, deliveryIndex := 0 }

/-- An in-play stone below both settle thresholds. -/
def slowSettledStone : StoneState :=
  { pos := ⟨0, 0⟩, vel := ⟨0.002, 0⟩, omega := 0.005, angle := 0, team := Team.red,
    inPlay := true, deliveryIndex := 0 }

/-- A resting delivered stone sitting exactly on the far hog line: its
leading edge (`pos.z - STONE_RADIUS`) is past the line, its trailing edge
(`pos.z + STONE_RADIUS`) is not. -/
def straddleStone : StoneState :=
  { pos := ⟨0, -HOG_Z⟩, vel := ⟨0, 0⟩, omega := 0, angle := 0, team := Team.red,
    inPlay := true, deliveryIndex := 0 }

/-- A settled world with only the straddling delivered stone. -/
def straddleWorld : PhysicsWorld :=
  { stones := [straddleStone], ice := DEFAULT_ICE_PARAMS, sweeping := false,
    targetEnd := -1, deliveredStoneIndex := 0, accumulator := 0 }

/-- A resting delivered stone that has fully crossed the far hog line. -/
def crossedStone : StoneState :=
  { pos := ⟨0, -12⟩, vel := ⟨0, 0⟩, omega := 0, angle := 0, team := Team.red,
    inPlay := true, deliveryIndex := 0 }

/-- A settled world with only the fully crossed delivered stone. -/
def crossedWorld : PhysicsWorld :=
  { stones := [crossedStone], ice := DEFAULT_ICE_PARAMS, sweeping := false,
    targetEnd := -1, deliveredStoneIndex := 0, accumulator := 0 }

/-- A red stone resting 0.3 m from the negative-Z button. -/
def c3red : StoneState :=
  { pos := ⟨0.3, -TEE_Z⟩, vel := ⟨0, 0⟩, omega := 0, angle := 0,
    team := Team.red, inPlay := true, deliveryIndex := 0 }

/-- A yellow stone resting 0.6 m from the negative-Z button. -/
def c3yellow : StoneState :=
  { pos := ⟨0, -TEE_Z + 0.6⟩, vel := ⟨0, 0⟩, omega := 0, angle := 0,
    team := Team.yellow, inPlay := true, deliveryIndex := 1 }

/-- A stone that is out of play during the scoring example. -/
def c3out : StoneState :=
  { pos := ⟨1, 1⟩, vel := ⟨0, 0⟩, omega := 0, angle := 0,
    team := Team.yellow, inPlay := false, deliveryIndex := 2 }

/-- The stone list of the scoring example of the spec: one red stone at
0.3 m, one yellow at 0.6 m, everything else out of play. -/
def exampleStones : List StoneState := [c3out, c3red, c3yellow]

/-- Left stone of a concrete head-on collision pair. -/
def headOnA : StoneState :=
  { pos := ⟨0, 0⟩, vel := ⟨1, 0⟩, omega := 0, angle := 0, team := Team.red,
    inPlay := true, deliveryIndex := 0 }

/-- Right stone of a concrete head-on collision pair, in contact with
`headOnA` and closing at the same speed. -/
def headOnB : StoneState :=
  { pos := ⟨0.2, 0⟩, vel := ⟨-1, 0⟩, omega := 0, angle := 0, team := Team.yellow,
    inPlay := true, deliveryIndex := 1 }

/-- An in-play stone whose edge is past the side boards. -/
def wallStone : StoneState :=
  { pos := ⟨2.4, 0⟩, vel := ⟨0, 0⟩, omega := 0, angle := 0, team := Team.yellow,
    inPlay := true, deliveryIndex := 1 }

/-- The all-zero release: zero speed, straight angle, no spin. -/
def releaseZero : ShotRelease := { x := 0, z := 0, speed := 0, angle := 0, omega := 0 }

/-- An aiming controller over an empty world whose accumulator is
negative (as after a negative elapsed-time call), so the next update
performs no sub-step. -/
def negAccController : GameController :=
  { phase := GamePhase.AIMING,
    world := { stones := [], ice := DEFAULT_ICE_PARAMS, sweeping := false,
               targetEnd := -1, deliveredStoneIndex := -1, accumulator := -1 },
    scoreHistory := [], totalScore := ⟨0, 0⟩, currentEnd := 1,
    hammerTeam := Team.yellow, deliveryCount := 0 }

def negAccGame : HeadlessGame := ⟨negAccController⟩

/-- The stone produced by delivering `releaseZero` toward the negative
end: at the hack, at rest. -/
def thrownStone : StoneState :=
  { pos := ⟨0, HACK_Z⟩, vel := ⟨0, 0⟩, omega := 0, angle := 0, team := Team.red,
    inPlay := true, deliveryIndex := 0 }

/-- `negAccController`'s world right after the delivery. -/
def thrownWorld : PhysicsWorld :=
  { stones := [thrownStone], ice := DEFAULT_ICE_PARAMS, sweeping := false,
    targetEnd := -1, deliveredStoneIndex := 0, accumulator := -1 }

/-- A stone near the button moving at 0.0055 m/s: above the settle
threshold, but one friction step leaves it at 0.000595 m/s — below the
is-moving threshold yet nonzero. -/
def slowStone : StoneState :=
  { pos := ⟨0, -TEE_Z⟩, vel := ⟨0.0055, 0⟩, omega := 0, angle := 0,
    team := Team.yellow, inPlay := true, deliveryIndex := 0 }

/-- An aiming controller over a world holding only `slowStone`. -/
def slowController : GameController :=
  { phase := GamePhase.AIMING,
    world := { stones := [slowStone], ice := DEFAULT_ICE_PARAMS, sweeping := false,
               targetEnd := -1, deliveredStoneIndex := -1, accumulator := 0 },
    scoreHistory := [], totalScore := ⟨0, 0⟩, currentEnd := 1,
    hammerTeam := Team.yellow, deliveryCount := 0 }

def slowGame : HeadlessGame := ⟨slowController⟩

/-- `slowController`'s world right after delivering `releaseZero`. -/
def slowThrownWorld : PhysicsWorld :=
  { stones := [slowStone, thrownStone], ice := DEFAULT_ICE_PARAMS,
    sweeping := false, targetEnd := -1, deliveredStoneIndex := 1,
    accumulator := 0 }

/-- `slowStone` after one friction step: still in play, velocity
0.000595 m/s — nonzero but below the is-moving threshold. -/
def slowMovedStone : StoneState :=
  { pos := ⟨119 / 24000000, -TEE_Z⟩, vel := ⟨0.000595, 0⟩, omega := 0,
    angle := 0, team := Team.yellow, inPlay := true, deliveryIndex := 0 }

/-- The world in which `throwAndSettle` on `slowGame` settles: the slow
stone retains its tiny nonzero velocity, the hog-line-violating delivered
stone is out of play. -/
def slowFinalWorld : PhysicsWorld :=
  { stones := [slowMovedStone, { thrownStone with inPlay := false }],
    ice := DEFAULT_ICE_PARAMS, sweeping := false, targetEnd := -1,
    deliveredStoneIndex := -1, accumulator := 0 }

/-! ## Helper lemmas -/

theorem positionalCorrection_inPlay (a b : StoneState) (dist nx nz : ℝ) :
    (positionalCorrection a b dist nx nz).1.inPlay = a.inPlay ∧
    (positionalCorrection a b dist nx nz).2.inPlay = b.inPlay := by
  unfold positionalCorrection
  dsimp only
  split <;> exact ⟨rfl, rfl⟩

theorem positionalCorrection_vel (a b : StoneState) (dist nx nz : ℝ) :
    (positionalCorrection a b dist nx nz).1.vel = a.vel ∧
    (positionalCorrection a b dist nx nz).2.vel = b.vel := by
  unfold positionalCorrection
  dsimp only
  split <;> exact ⟨rfl, rfl⟩

theorem positionalCorrection_omega (a b : StoneState) (dist nx nz : ℝ) :
    (positionalCorrection a b dist nx nz).1.omega = a.omega ∧
    (positionalCorrection a b dist nx nz).2.omega = b.omega := by
  unfold positionalCorrection
  dsimp only
  split <;> exact ⟨rfl, rfl⟩

theorem resolveStoneStone_inPlay (a b : StoneState) :
    (resolveStoneStone a b).1.inPlay = a.inPlay ∧
    (resolveStoneStone a b).2.inPlay = b.inPlay := by
  unfold resolveStoneStone
  dsimp only
  split
  · exact ⟨rfl, rfl⟩
  · split
    · exact positionalCorrection_inPlay ..
    · exact positionalCorrection_inPlay ..

theorem resolveWall_inPlay_or (s : StoneState) (hw : ℝ) :
    resolveWall s hw = { s with inPlay := false } ∨ resolveWall s hw = s := by
  unfold resolveWall
  split
  · exact Or.inl rfl
  · exact Or.inr rfl

theorem resolveWall_pos (s : StoneState) (hw : ℝ) :
    (resolveWall s hw).pos = s.pos ∧ (resolveWall s hw).vel = s.vel ∧
    (resolveWall s hw).omega = s.omega := by
  unfold resolveWall
  split <;> exact ⟨rfl, rfl, rfl⟩

theorem resolveWall_out (s : StoneState) (hw : ℝ)
    (h : s.pos.x - STONE_RADIUS < -hw ∨ s.pos.x + STONE_RADIUS > hw) :
    (resolveWall s hw).inPlay = false := by
  unfold resolveWall
  rw [if_pos h]

theorem integrateStone_inPlay (ice : IceParams) (sweeping : Bool)
    (s : StoneState) : (integrateStone ice sweeping s).inPlay = s.inPlay := by
  unfold integrateStone
  dsimp only
  split
  · split <;> rfl
  · rfl

theorem integrateStone_of_notInPlay (ice : IceParams) (sweeping : Bool)
    {s : StoneState} (h : s.inPlay = false) :
    integrateStone ice sweeping s = s := by
  unfold integrateStone
  rw [if_neg]
  simp [h]

theorem mem_activeIndices {stones : List StoneState} {i : ℕ} :
    i ∈ activeIndices stones ↔ ∃ s, stones[i]? = some s ∧ s.inPlay = true := by
  unfold activeIndices
  rw [List.mem_filter, List.mem_range]
  constructor
  · rintro ⟨hlen, hp⟩
    cases hget : stones[i]? with
    | none => rw [hget] at hp; simp at hp
    | some s => rw [hget] at hp; simp at hp; exact ⟨s, rfl, hp⟩
  · rintro ⟨s, hget, hp⟩
    have hlen : i < stones.length := by
      by_contra hge
      rw [List.getElem?_eq_none (by omega)] at hget
      exact Option.noConfusion hget
    exact ⟨hlen, by rw [hget]; simpa using hp⟩

theorem pairsOf_mem {l : List ℕ} {p : ℕ × ℕ} (h : p ∈ pairsOf l) :
    p.1 ∈ l ∧ p.2 ∈ l := by
  induction l with
  | nil => simp [pairsOf] at h
  | cons a rest ih =>
    unfold pairsOf at h
    rw [List.mem_append] at h
    rcases h with h | h
    · obtain ⟨j, hj, hp⟩ := List.mem_map.mp h
      rw [← hp]
      exact ⟨List.mem_cons_self .., List.mem_cons_of_mem _ hj⟩
    · obtain ⟨h1, h2⟩ := ih h
      exact ⟨List.mem_cons_of_mem _ h1, List.mem_cons_of_mem _ h2⟩

theorem resolvePairAt_get_ne {stones : List StoneState} {ij : ℕ × ℕ} {i : ℕ}
    (h1 : ij.1 ≠ i) (h2 : ij.2 ≠ i) :
    (resolvePairAt stones ij)[i]? = stones[i]? := by
  unfold resolvePairAt
  cases stones[ij.1]? <;> cases stones[ij.2]? <;>
    simp [List.getElem?_set_ne h1, List.getElem?_set_ne h2]

theorem resolvePairAt_inPlay (stones : List StoneState) (ij : ℕ × ℕ) (i : ℕ) :
    ((resolvePairAt stones ij)[i]?).map StoneState.inPlay =
      (stones[i]?).map StoneState.inPlay := by
  unfold resolvePairAt
  cases ha : stones[ij.1]? with
  | none => cases stones[ij.2]? <;> rfl
  | some a =>
    cases hb : stones[ij.2]? with
    | none => rfl
    | some b =>
      by_cases h2 : ij.2 = i
      · subst h2
        have hlen2 : ij.2 < stones.length := (List.getElem?_eq_some_iff.mp hb).1
        rw [List.getElem?_set_self (by rw [List.length_set]; exact hlen2), hb]
        simp only [Option.map_some']
        rw [(resolveStoneStone_inPlay a b).2]
      · rw [List.getElem?_set_ne h2]
        by_cases h1 : ij.1 = i
        · subst h1
          have hlen1 : ij.1 < stones.length := (List.getElem?_eq_some_iff.mp ha).1
          rw [List.getElem?_set_self hlen1, ha]
          simp only [Option.map_some']
          rw [(resolveStoneStone_inPlay a b).1]
        · rw [List.getElem?_set_ne h1]

theorem foldl_resolvePairAt_get {ps : List (ℕ × ℕ)} {stones : List StoneState}
    {i : ℕ} (h : ∀ p ∈ ps, p.1 ≠ i ∧ p.2 ≠ i) :
    (ps.foldl resolvePairAt stones)[i]? = stones[i]? := by
  induction ps generalizing stones with
  | nil => rfl
  | cons p rest ih =>
    rw [List.foldl_cons, ih (fun q hq => h q (List.mem_cons_of_mem _ hq))]
    exact resolvePairAt_get_ne (h p (List.mem_cons_self ..)).1 (h p (List.mem_cons_self ..)).2

theorem foldl_resolvePairAt_inPlay (ps : List (ℕ × ℕ)) (stones : List StoneState)
    (i : ℕ) :
    ((ps.foldl resolvePairAt stones)[i]?).map StoneState.inPlay =
      (stones[i]?).map StoneState.inPlay := by
  induction ps generalizing stones with
  | nil => rfl
  | cons p rest ih =>
    rw [List.foldl_cons, ih, resolvePairAt_inPlay]

theorem wallAt_get_ne {stones : List StoneState} {j i : ℕ} (h : j ≠ i) :
    (wallAt stones j)[i]? = stones[i]? := by
  unfold wallAt
  cases stones[j]? <;> simp [List.getElem?_set_ne h]

theorem foldl_wallAt_get_not_mem {idxs : List ℕ} {stones : List StoneState}
    {i : ℕ} (h : i ∉ idxs) :
    (idxs.foldl wallAt stones)[i]? = stones[i]? := by
  induction idxs generalizing stones with
  | nil => rfl
  | cons j rest ih =>
    rw [List.foldl_cons, ih (fun hm => h (List.mem_cons_of_mem _ hm))]
    exact wallAt_get_ne (fun hji => h (hji ▸ List.mem_cons_self ..))

theorem wallAt_length (stones : List StoneState) (j : ℕ) :
    (wallAt stones j).length = stones.length := by
  unfold wallAt
  cases stones[j]? <;> simp

theorem foldl_wallAt_get_mem {idxs : List ℕ} {stones : List StoneState} {i : ℕ}
    (hn : idxs.Nodup) (hm : i ∈ idxs) :
    (idxs.foldl wallAt stones)[i]? =
      (stones[i]?).map (fun s => resolveWall s (SHEET_WIDTH / 2)) := by
  induction idxs generalizing stones with
  | nil => simp at hm
  | cons j rest ih =>
    rw [List.foldl_cons]
    rcases List.mem_cons.mp hm with hij | hmem
    · subst hij
      have hrest : i ∉ rest := (List.nodup_cons.mp hn).1
      rw [foldl_wallAt_get_not_mem hrest]
      unfold wallAt
      cases hget : stones[i]? with
      | none => rw [hget]; rfl
      | some s =>
        have hlen : i < stones.length := (List.getElem?_eq_some_iff.mp hget).1
        dsimp only
        rw [List.getElem?_set_self hlen]
        rfl
    · have hji : j ≠ i := fun hji => (List.nodup_cons.mp hn).1 (hji ▸ hmem)
      rw [ih (List.nodup_cons.mp hn).2 hmem, wallAt_get_ne hji]

theorem activeIndices_nodup (stones : List StoneState) :
    (activeIndices stones).Nodup :=
  List.Nodup.filter _ (List.nodup_range _)

theorem not_mem_activeIndices {stones : List StoneState} {i : ℕ}
    {s : StoneState} (hget : stones[i]? = some s) (h : s.inPlay = false) :
    i ∉ activeIndices stones := by
  intro hmem
  obtain ⟨t, hget2, hp⟩ := mem_activeIndices.mp hmem
  rw [hget, Option.some_inj] at hget2
  rw [← hget2, h] at hp
  exact Bool.noConfusion hp

theorem pairsOf_avoids {stones : List StoneState} {i : ℕ} {s : StoneState}
    (hget : stones[i]? = some s) (h : s.inPlay = false) :
    ∀ p ∈ pairsOf (activeIndices stones), p.1 ≠ i ∧ p.2 ≠ i := by
  intro p hp
  have hm := pairsOf_mem hp
  have hact := not_mem_activeIndices hget h
  exact ⟨fun h1 => hact (h1 ▸ hm.1), fun h2 => hact (h2 ▸ hm.2)⟩

theorem resolveCollisions_get_notInPlay {stones : List StoneState} {i : ℕ}
    {s : StoneState} (hget : stones[i]? = some s) (h : s.inPlay = false) :
    (resolveCollisions stones)[i]? = some s := by
  unfold resolveCollisions
  rw [foldl_wallAt_get_not_mem (not_mem_activeIndices hget h),
    foldl_resolvePairAt_get (pairsOf_avoids hget h), hget]

theorem stepPhysics_get_notInPlay {stones : List StoneState} {i : ℕ}
    {s : StoneState} {ice : IceParams} {sweeping : Bool}
    (hget : stones[i]? = some s) (h : s.inPlay = false) :
    (stepPhysics stones ice sweeping)[i]? = some s := by
  unfold stepPhysics
  have hmap : (stones.map (integrateStone ice sweeping))[i]? = some s := by
    rw [List.getElem?_map, hget, Option.map_some',
      integrateStone_of_notInPlay ice sweeping h]
  exact resolveCollisions_get_notInPlay hmap h

theorem applyRules_get_notInPlay {stones : List StoneState} {i : ℕ}
    {s : StoneState} {d targetEnd : ℤ}
    (hget : stones[i]? = some s) (h : s.inPlay = false) :
    (applyRules stones d targetEnd)[i]? = some s := by
  unfold applyRules
  rw [List.getElem?_map, hget, Option.map_some']
  simp [h]

theorem stepOnce_get_notInPlay {stones : List StoneState} {i : ℕ}
    {s : StoneState} {ice : IceParams} {sweeping : Bool} {d targetEnd : ℤ}
    (hget : stones[i]? = some s) (h : s.inPlay = false) :
    (stepOnce ice sweeping d targetEnd stones)[i]? = some s :=
  applyRules_get_notInPlay (stepPhysics_get_notInPlay hget h) h

theorem stepOnce_iterate_get_notInPlay {i : ℕ} {s : StoneState}
    {ice : IceParams} {sweeping : Bool} {d targetEnd : ℤ} (n : ℕ)
    {stones : List StoneState}
    (hget : stones[i]? = some s) (h : s.inPlay = false) :
    ((stepOnce ice sweeping d targetEnd)^[n] stones)[i]? = some s := by
  induction n generalizing stones with
  | zero => exact hget
  | succ n ih =>
    rw [Function.iterate_succ_apply]
    exact ih (stepOnce_get_notInPlay hget h)

theorem hogCheck_get_notInPlay {stones : List StoneState} {i : ℕ}
    {s : StoneState} {d targetEnd : ℤ}
    (hget : stones[i]? = some s) (h : s.inPlay = false) :
    (hogCheck stones d targetEnd)[i]? = some s := by
  unfold hogCheck
  split
  · cases hd : stones[d.toNat]? with
    | none => exact hget
    | some delivered =>
      dsimp only
      split
      · next hguard =>
        by_cases hdi : d.toNat = i
        · rw [hdi, hget, Option.some_inj] at hd
          rw [← hd, h] at hguard
          exact absurd hguard.1 (by simp)
        · rw [List.getElem?_set_ne hdi]
          exact hget
      · exact hget
  · exact hget

theorem update_get_notInPlay {w : PhysicsWorld} {e : ℝ} {i : ℕ}
    {s : StoneState} (hget : w.stones[i]? = some s) (h : s.inPlay = false) :
    ((w.update e).2).stones[i]? = some s := by
  unfold PhysicsWorld.update
  dsimp only
  split
  · exact stepOnce_iterate_get_notInPlay _ hget h
  · exact hogCheck_get_notInPlay (stepOnce_iterate_get_notInPlay _ hget h) h

theorem deliverStone_get {w : PhysicsWorld} {i : ℕ} {s : StoneState}
    (team : Team) (release : ShotRelease) (k : ℕ)
    (hget : w.stones[i]? = some s) :
    ((w.deliverStone team release k).stones)[i]? = some s := by
  unfold PhysicsWorld.deliverStone
  dsimp only
  rw [List.getElem?_append_left (List.getElem?_eq_some_iff.mp hget).1]
  exact hget

theorem resolveCollisions_out_of_bounds {stones : List StoneState}
    {t : StoneState} (hmem : t ∈ resolveCollisions stones)
    (hout : t.pos.x - STONE_RADIUS < -(SHEET_WIDTH / 2) ∨
            t.pos.x + STONE_RADIUS > SHEET_WIDTH / 2) :
    t.inPlay = false := by
  obtain ⟨j, hj⟩ := List.mem_iff_getElem?.mp hmem
  by_cases hact : j ∈ activeIndices stones
  · unfold resolveCollisions at hj
    rw [foldl_wallAt_get_mem (activeIndices_nodup stones) hact] at hj
    cases ha : ((pairsOf (activeIndices stones)).foldl resolvePairAt stones)[j]? with
    | none => rw [ha] at hj; exact Option.noConfusion hj
    | some a =>
      rw [ha, Option.map_some', Option.some_inj] at hj
      have hpos : t.pos = a.pos := by rw [← hj]; exact (resolveWall_pos a _).1
      rw [← hj]
      apply resolveWall_out
      rw [← hpos]
      exact hout
  · unfold resolveCollisions at hj
    rw [foldl_wallAt_get_not_mem hact] at hj
    rw [foldl_resolvePairAt_get] at hj
    · cases htp : t.inPlay with
      | false => rfl
      | true => exact absurd (mem_activeIndices.mpr ⟨t, hj, htp⟩) hact
    · intro p hp
      have hm := pairsOf_mem hp
      exact ⟨fun h1 => hact (h1 ▸ hm.1), fun h2 => hact (h2 ▸ hm.2)⟩

/-! ## C10 -/

/-- C10: every physics step (force integration, collision resolution, and
rules application) leaves every stone with `inPlay = false` completely
unchanged — the entry at its index is exactly the same record
afterwards. -/
theorem outOfPlay_stone_frame (stones : List StoneState) (ice : IceParams)
    (sweeping : Bool) (d targetEnd : ℤ) (i : ℕ) (s : StoneState)
    (hget : stones[i]? = some s) (h : s.inPlay = false) :
    (stepPhysics stones ice sweeping)[i]? = some s ∧
    (resolveCollisions stones)[i]? = some s ∧
    (applyRules stones d targetEnd)[i]? = some s :=
  ⟨stepPhysics_get_notInPlay hget h, resolveCollisions_get_notInPlay hget h,
    applyRules_get_notInPlay hget h⟩

/-- C10 witness: the out-of-play stone `outStone` is untouched by a full
physics step, by collision resolution and by the rules pass. -/
theorem outOfPlay_stone_frame_witness :
    (stepPhysics [outStone] DEFAULT_ICE_PARAMS false)[0]? = some outStone ∧
    (resolveCollisions [outStone])[0]? = some outStone ∧
    (applyRules [outStone] (-1) (-1))[0]? = some outStone :=
  outOfPlay_stone_frame [outStone] DEFAULT_ICE_PARAMS false (-1) (-1) 0
    outStone rfl rfl

/-! ## C5 -/

/-- C5: a stone whose edge crosses the side boundary of the sheet is out
of play as soon as that very step completes, and `inPlay` is monotone:
the physics step, the rules pass, the world update and the delivery never
turn `inPlay` of an existing stone from `false` back to `true` (they keep
the out-of-play record entirely unchanged); scoring reads the stones
without producing any. -/
theorem wall_out_and_inPlay_monotone (stones : List StoneState)
    (ice : IceParams) (sweeping : Bool) (d targetEnd : ℤ) (w : PhysicsWorld)
    (e : ℝ) (team : Team) (release : ShotRelease) (k i : ℕ) (s : StoneState) :
    (∀ t ∈ stepPhysics stones ice sweeping,
      (t.pos.x - STONE_RADIUS < -(SHEET_WIDTH / 2) ∨
       t.pos.x + STONE_RADIUS > SHEET_WIDTH / 2) → t.inPlay = false) ∧
    (stones[i]? = some s → s.inPlay = false →
      (stepPhysics stones ice sweeping)[i]? = some s) ∧
    (stones[i]? = some s → s.inPlay = false →
      (resolveCollisions stones)[i]? = some s) ∧
    (stones[i]? = some s → s.inPlay = false →
      (applyRules stones d targetEnd)[i]? = some s) ∧
    (w.stones[i]? = some s → s.inPlay = false →
      ((w.update e).2).stones[i]? = some s) ∧
    (w.stones[i]? = some s → s.inPlay = false →
      ((w.deliverStone team release k).stones)[i]? = some s) := by
  refine ⟨?_, ?_, ?_, ?_, ?_, ?_⟩
  · intro t hmem hout
    unfold stepPhysics at hmem
    exact resolveCollisions_out_of_bounds hmem hout
  · exact fun hget h => stepPhysics_get_notInPlay hget h
  · exact fun hget h => resolveCollisions_get_notInPlay hget h
  · exact fun hget h => applyRules_get_notInPlay hget h
  · exact fun hget h => update_get_notInPlay hget h
  · exact fun hget _ => deliverStone_get team release k hget

/-- C5 witness: the monotonicity and wall statements instantiated at a
singleton world holding a stone past the side boards. -/
theorem wall_out_and_inPlay_monotone_witness :
    (∀ t ∈ stepPhysics [wallStone] DEFAULT_ICE_PARAMS false,
      (t.pos.x - STONE_RADIUS < -(SHEET_WIDTH / 2) ∨
       t.pos.x + STONE_RADIUS > SHEET_WIDTH / 2) → t.inPlay = false) ∧
    (([wallStone] : List StoneState)[0]? = some outStone → outStone.inPlay = false →
      (stepPhysics [wallStone] DEFAULT_ICE_PARAMS false)[0]? = some outStone) ∧
    (([wallStone] : List StoneState)[0]? = some outStone → outStone.inPlay = false →
      (resolveCollisions [wallStone])[0]? = some outStone) ∧
    (([wallStone] : List StoneState)[0]? = some outStone → outStone.inPlay = false →
      (applyRules [wallStone] (-1) (-1))[0]? = some outStone) ∧
    (emptyWorld.stones[0]? = some outStone → outStone.inPlay = false →
      ((emptyWorld.update 0).2).stones[0]? = some outStone) ∧
    (emptyWorld.stones[0]? = some outStone → outStone.inPlay = false →
      ((emptyWorld.deliverStone Team.red releaseA 0).stones)[0]? = some outStone) :=
  wall_out_and_inPlay_monotone [wallStone] DEFAULT_ICE_PARAMS false (-1) (-1)
    emptyWorld 0 Team.red releaseA 0 0 outStone

/-! ## C9 -/

/-- C9: a delivered stone starts at `(release.x, hackZ)` where `hackZ`
is the hack coordinate on the side selected solely by the targeted end of
the world; the field `z` of the release is never read, so two releases
differing only in `z` produce identical worlds. -/
theorem deliverStone_ignores_release_z (w : PhysicsWorld) (team : Team)
    (r1 r2 : ShotRelease) (k : ℕ) (hx : r1.x = r2.x) (hs : r1.speed = r2.speed)
    (ha : r1.angle = r2.angle) (ho : r1.omega = r2.omega) :
    w.deliverStone team r1 k = w.deliverStone team r2 k ∧
    ((w.deliverStone team r1 k).stones.getLast?).map StoneState.pos =
      some ⟨r1.x, if w.targetEnd = -1 then HACK_Z else -HACK_Z⟩ := by
  constructor
  · unfold PhysicsWorld.deliverStone
    rw [hx, hs, ha, ho]
  · unfold PhysicsWorld.deliverStone
    dsimp only
    rw [List.getLast?_concat]
    rfl

/-- C9 witness: two concrete releases that differ only in `z` deliver the
same stone at `(0.1, HACK_Z)`. -/
theorem deliverStone_ignores_release_z_witness :
    emptyWorld.deliverStone Team.red releaseA 0 =
      emptyWorld.deliverStone Team.red releaseB 0 ∧
    ((emptyWorld.deliverStone Team.red releaseA 0).stones.getLast?).map
        StoneState.pos =
      some ⟨releaseA.x, if emptyWorld.targetEnd = -1 then HACK_Z else -HACK_Z⟩ :=
  deliverStone_ignores_release_z emptyWorld Team.red releaseA releaseB 0
    rfl rfl rfl rfl

/-! ## C4 -/

/-- C4: outside the `AIMING` phase the real-time entry point
`GameController.throwStone` is a silent no-op that returns the controller
(and hence its world) unchanged, while the headless entry point
`HeadlessGame.throwAndSettle` signals a distinct failure to the caller,
returning an `Except.error` that carries no mutated state. -/
theorem throw_outside_aiming (c : GameController) (release : ShotRelease)
    (fuel : ℕ) (h : c.phase ≠ GamePhase.AIMING) :
    c.throwStone release = c ∧
    HeadlessGame.throwAndSettle ⟨c⟩ release fuel =
      Except.error ("Cannot throw stone in phase: " ++ phaseName c.phase) := by
  constructor
  · unfold GameController.throwStone
    rw [if_pos h]
  · unfold HeadlessGame.throwAndSettle
    dsimp only
    rw [if_pos h]

/-- C4 witness: a delivery attempted while the controller is in the
`DELIVERING` phase. -/
theorem throw_outside_aiming_witness :
    deliveringController.throwStone releaseA = deliveringController ∧
    HeadlessGame.throwAndSettle ⟨deliveringController⟩ releaseA 5 =
      Except.error ("Cannot throw stone in phase: " ++
        phaseName deliveringController.phase) :=
  throw_outside_aiming deliveringController releaseA 5 (by decide)

/-! ## C8 -/

/-- C8: for every call to `PhysicsWorld.update`, the accumulator is
capped at 0.2 s before stepping, the capped value yields at most 24
fixed sub-steps (0.2 / (1/120) = 24), and the accumulator stored on
return is strictly below one timestep. -/
theorem update_cap_bounds (w : PhysicsWorld) (e : ℝ) :
    w.cappedAcc e ≤ 0.2 ∧
    w.subStepCount e ≤ 24 ∧
    ((w.update e).2).accumulator < PHYSICS_DT := by
  have hdt : (0 : ℝ) < PHYSICS_DT := by norm_num [PHYSICS_DT]
  have hcap : w.cappedAcc e ≤ 0.2 := by
    unfold PhysicsWorld.cappedAcc
    dsimp only
    split
    · exact le_rfl
    · next hc => exact not_lt.mp hc
  have hsub : w.subStepCount e ≤ 24 := by
    unfold PhysicsWorld.subStepCount
    apply Nat.floor_le_of_le
    rw [div_le_iff₀ hdt]
    have h24 : ((24 : ℕ) : ℝ) * PHYSICS_DT = 0.2 := by norm_num [PHYSICS_DT]
    rw [h24]
    exact hcap
  have hacc : w.cappedAcc e - (w.subStepCount e : ℝ) * PHYSICS_DT < PHYSICS_DT := by
    have hfl : w.cappedAcc e / PHYSICS_DT < (w.subStepCount e : ℝ) + 1 :=
      Nat.lt_floor_add_one _
    have := (div_lt_iff₀ hdt).mp hfl
    nlinarith
  refine ⟨hcap, hsub, ?_⟩
  unfold PhysicsWorld.update
  dsimp only
  split
  · exact hacc
  · exact hacc

/-! ## C6 -/

theorem resolveCollisions_singleton (u : StoneState) :
    resolveCollisions [u] =
      [if u.inPlay then resolveWall u (SHEET_WIDTH / 2) else u] := by
  unfold resolveCollisions
  cases hp : u.inPlay with
  | false =>
    have hact : activeIndices [u] = [] := by
      unfold activeIndices
      simp [hp]
    rw [hact]
    simp [pairsOf]
  | true =>
    have hact : activeIndices [u] = [0] := by
      unfold activeIndices
      simp [List.range_succ, hp]
    rw [hact]
    simp [pairsOf, wallAt]

theorem resolveCollisions_singleton_of_inPlay {u : StoneState}
    (hp : u.inPlay = true) :
    resolveCollisions [u] = [resolveWall u (SHEET_WIDTH / 2)] := by
  rw [resolveCollisions_singleton, hp]
  simp

theorem stepPhysics_settled_singleton (ice : IceParams) (sweeping : Bool)
    {u : StoneState} (hv : u.vel = ⟨0, 0⟩) (ho : u.omega = 0) :
    ∀ t ∈ stepPhysics [u] ice sweeping, t.vel = ⟨0, 0⟩ ∧ t.omega = 0 := by
  have hint : (integrateStone ice sweeping u).vel = ⟨0, 0⟩ ∧
      (integrateStone ice sweeping u).omega = 0 := by
    unfold integrateStone
    cases hp : u.inPlay with
    | false => simp only [hp]; exact ⟨hv, ho⟩
    | true =>
      simp only [hp]
      dsimp only
      have hc : Real.sqrt (u.vel.x * u.vel.x + u.vel.z * u.vel.z) <
          SETTLE_VEL_THRESHOLD ∧ |u.omega| < SETTLE_OMEGA_THRESHOLD := by
        constructor
        · rw [hv]
          dsimp only
          rw [show (0 : ℝ) * 0 + 0 * 0 = 0 by ring, Real.sqrt_zero]
          norm_num [SETTLE_VEL_THRESHOLD]
        · rw [ho]
          norm_num [SETTLE_OMEGA_THRESHOLD]
      rw [if_pos hc]
      exact ⟨rfl, rfl⟩
  intro t ht
  unfold stepPhysics at ht
  rw [List.map_cons, List.map_nil, resolveCollisions_singleton] at ht
  rcases List.mem_singleton.mp ht with rfl
  split
  all_goals first
    | exact hint
    | exact ⟨((resolveWall_pos _ _).2.1).trans hint.1,
             ((resolveWall_pos _ _).2.2).trans hint.2⟩

/-- C6: an in-play stone below both settle thresholds (speed below
0.003 m/s and absolute spin below 0.01 rad/s) is snapped to exactly zero
velocity and spin by the per-stone integration, which skips force
integration entirely (the position is untouched); one full physics step
of the world holding only this stone leaves velocity and spin exactly
zero, and a further step keeps them exactly zero. -/
theorem settle_clamp (s : StoneState) (ice : IceParams) (sweeping : Bool)
    (hp : s.inPlay = true)
    (hv : Real.sqrt (s.vel.x * s.vel.x + s.vel.z * s.vel.z) < SETTLE_VEL_THRESHOLD)
    (ho : |s.omega| < SETTLE_OMEGA_THRESHOLD) :
    integrateStone ice sweeping s = { s with vel := ⟨0, 0⟩, omega := 0 } ∧
    (∀ t ∈ stepPhysics [s] ice sweeping, t.vel = ⟨0, 0⟩ ∧ t.omega = 0) ∧
    (∀ t ∈ stepPhysics (stepPhysics [s] ice sweeping) ice sweeping,
      t.vel = ⟨0, 0⟩ ∧ t.omega = 0) := by
  have hclamp : integrateStone ice sweeping s =
      { s with vel := ⟨0, 0⟩, omega := 0 } := by
    unfold integrateStone
    simp only [hp, if_true]
    dsimp only
    have hc : Real.sqrt (s.vel.x * s.vel.x + s.vel.z * s.vel.z) <
        SETTLE_VEL_THRESHOLD ∧ |s.omega| < SETTLE_OMEGA_THRESHOLD := ⟨hv, ho⟩
    rw [if_pos hc]
  have hcp : ({ s with vel := (⟨0, 0⟩ : Vec2), omega := (0 : ℝ) } :
      StoneState).inPlay = true := hp
  have hstep1 : ∀ t ∈ stepPhysics [s] ice sweeping,
      t.vel = ⟨0, 0⟩ ∧ t.omega = 0 := by
    intro t ht
    unfold stepPhysics at ht
    rw [List.map_cons, List.map_nil, hclamp,
      resolveCollisions_singleton_of_inPlay hcp] at ht
    rcases List.mem_singleton.mp ht with rfl
    exact ⟨(resolveWall_pos _ _).2.1, (resolveWall_pos _ _).2.2⟩
  have hexists : ∃ u, stepPhysics [s] ice sweeping = [u] := by
    unfold stepPhysics
    rw [List.map_cons, List.map_nil, hclamp,
      resolveCollisions_singleton_of_inPlay hcp]
    exact ⟨_, rfl⟩
  obtain ⟨u, hu⟩ := hexists
  have hufields := hstep1 u (by rw [hu]; exact List.mem_singleton.mpr rfl)
  refine ⟨hclamp, hstep1, ?_⟩
  intro t ht
  rw [hu] at ht
  exact stepPhysics_settled_singleton ice sweeping hufields.1 hufields.2 t ht

/-! ## C2 -/

theorem update_no_steps {w : PhysicsWorld} {e : ℝ} (hn : w.subStepCount e = 0)
    (hsim : ¬ w.isSimulating) :
    w.update e = (false, { w with
      stones := hogCheck w.stones w.deliveredStoneIndex w.targetEnd,
      accumulator := w.cappedAcc e - (w.subStepCount e : ℝ) * PHYSICS_DT,
      deliveredStoneIndex := -1 }) := by
  unfold PhysicsWorld.update
  dsimp only
  rw [hn, Function.iterate_zero_apply]
  split
  · next hS => exact absurd hS hsim
  · rfl

theorem update_stones_no_steps_no_delivered {w : PhysicsWorld} {e : ℝ}
    (hn : w.subStepCount e = 0) (hidx : w.deliveredStoneIndex = -1) :
    ((w.update e).2).stones = w.stones := by
  unfold PhysicsWorld.update
  dsimp only
  rw [hn, Function.iterate_zero_apply, hidx]
  split
  · rfl
  · show hogCheck w.stones (-1) w.targetEnd = w.stones
    unfold hogCheck
    rw [if_neg (by norm_num)]

/-- C2 (amended): once motion has ceased (a call that performs no
sub-steps on a non-simulating world), the tracked delivered stone is
retroactively marked out of play if and only if it has NOT fully crossed
the far hog line (`checkHogLineViolation`: playing toward negative Z the
trailing edge `pos.z + STONE_RADIUS` is still above the line), the check
uses the final resting position, and it fires exactly once per delivery:
the update clears the delivered-stone index to `-1`, after which any
further no-step update leaves the stones unchanged. -/
theorem hog_line_check_on_settle (w : PhysicsWorld) (e : ℝ) (i : ℕ)
    (s : StoneState) (hn : w.subStepCount e = 0) (hsim : ¬ w.isSimulating)
    (hidx : w.deliveredStoneIndex = (i : ℤ)) (hget : w.stones[i]? = some s)
    (hp : s.inPlay = true) :
    (w.update e).1 = false ∧
    ((w.update e).2).deliveredStoneIndex = -1 ∧
    (((w.update e).2).stones[i]? = some { s with inPlay := false } ↔
      checkHogLineViolation s w.targetEnd) ∧
    (¬ checkHogLineViolation s w.targetEnd →
      ((w.update e).2).stones[i]? = some s) ∧
    (∀ e2, ((w.update e).2).subStepCount e2 = 0 →
      (((w.update e).2).update e2).2.stones = ((w.update e).2).stones) := by
  rw [update_no_steps hn hsim]
  dsimp only
  have hlen : i < w.stones.length := (List.getElem?_eq_some_iff.mp hget).1
  have hogEval : hogCheck w.stones w.deliveredStoneIndex w.targetEnd =
      if checkHogLineViolation s w.targetEnd then
        w.stones.set i { s with inPlay := false }
      else w.stones := by
    unfold hogCheck
    rw [hidx, if_pos (Int.natCast_nonneg i), Int.toNat_natCast, hget]
    dsimp only
    simp only [hp, true_and]
  refine ⟨rfl, rfl, ?_, ?_, ?_⟩
  · rw [hogEval]
    by_cases hv : checkHogLineViolation s w.targetEnd
    · rw [if_pos hv, List.getElem?_set_self hlen]
      exact ⟨fun _ => hv, fun _ => rfl⟩
    · rw [if_neg hv, hget]
      constructor
      · intro heq
        exfalso
        have hinj := Option.some_inj.mp heq
        have hcongr := congrArg StoneState.inPlay hinj
        rw [hp] at hcongr
        exact Bool.noConfusion hcongr
      · intro hv2
        exact absurd hv2 hv
  · intro hnv
    rw [hogEval, if_neg hnv]
    exact hget
  · intro e2 hn2
    exact update_stones_no_steps_no_delivered hn2 rfl

/-- C2 counterexample: a delivered stone resting exactly on the far hog
line has its leading edge past the line (so by the claim it should stay
in play), yet the settling update marks it out of play — the code
requires the full stone, trailing edge included, to cross. -/
theorem hog_line_leading_edge_counterexample :
    straddleStone.pos.z - STONE_RADIUS < ((-1 : ℤ) : ℝ) * HOG_Z ∧
    (straddleWorld.update 0).2.stones =
      [{ straddleStone with inPlay := false }] := by
  have hviol : checkHogLineViolation straddleStone (-1) := by
    unfold checkHogLineViolation straddleStone
    norm_num [HOG_Z, TEE_Z, FT, STONE_RADIUS]
  constructor
  · show -HOG_Z - STONE_RADIUS < ((-1 : ℤ) : ℝ) * HOG_Z
    norm_num [HOG_Z, TEE_Z, FT, STONE_RADIUS]
  · have hn : straddleWorld.subStepCount 0 = 0 := by
      unfold PhysicsWorld.subStepCount PhysicsWorld.cappedAcc straddleWorld
      norm_num
    have hsim : ¬ straddleWorld.isSimulating := by
      rintro ⟨s, hmem, hp2, hmov⟩
      simp only [straddleWorld, List.mem_singleton] at hmem
      subst hmem
      rcases hmov with h | h | h <;> norm_num [straddleStone] at h
    rw [update_no_steps hn hsim]
    show hogCheck [straddleStone] 0 (-1) = [{ straddleStone with inPlay := false }]
    have h1 : hogCheck [straddleStone] 0 (-1) =
        if straddleStone.inPlay ∧ checkHogLineViolation straddleStone (-1) then
          [straddleStone].set 0 { straddleStone with inPlay := false }
        else [straddleStone] := rfl
    rw [h1, if_pos ⟨rfl, hviol⟩]
    rfl

/-- C2 witness: the amended check evaluated on a delivered stone that has
fully crossed the hog line — it stays in play, the delivered-stone index
is cleared, and a further idle update changes nothing. -/
theorem hog_line_check_on_settle_witness :
    (crossedWorld.update 0).1 = false ∧
    ((crossedWorld.update 0).2).deliveredStoneIndex = -1 ∧
    (((crossedWorld.update 0).2).stones[0]? =
        some { crossedStone with inPlay := false } ↔
      checkHogLineViolation crossedStone crossedWorld.targetEnd) ∧
    (¬ checkHogLineViolation crossedStone crossedWorld.targetEnd →
      ((crossedWorld.update 0).2).stones[0]? = some crossedStone) ∧
    (∀ e2, ((crossedWorld.update 0).2).subStepCount e2 = 0 →
      (((crossedWorld.update 0).2).update e2).2.stones =
        ((crossedWorld.update 0).2).stones) :=
  hog_line_check_on_settle crossedWorld 0 0 crossedStone
    (by
      unfold PhysicsWorld.subStepCount PhysicsWorld.cappedAcc crossedWorld
      norm_num)
    (by
      rintro ⟨s, hmem, hp2, hmov⟩
      simp only [crossedWorld, List.mem_singleton] at hmem
      subst hmem
      rcases hmov with h | h | h <;> norm_num [crossedStone] at h)
    rfl rfl rfl

/-! ## C3 -/

theorem takeWhile_length_eq_filter {α : Type} (p : α → Bool) (l : List α)
    (h : List.Pairwise (fun x y => p y = true → p x = true) l) :
    (l.takeWhile p).length = (l.filter p).length := by
  induction l with
  | nil => rfl
  | cons a t ih =>
    rcases List.pairwise_cons.mp h with ⟨ha, ht⟩
    cases hpa : p a with
    | true =>
      rw [List.takeWhile_cons_of_pos hpa, List.filter_cons_of_pos hpa]
      simp [ih ht]
    | false =>
      have hnpa : ¬p a = true := by simp [hpa]
      rw [List.takeWhile_cons_of_neg hnpa, List.filter_cons_of_neg hnpa]
      have hnone : ∀ y ∈ t, ¬p y = true := by
        intro y hy hpy
        rw [ha y hy hpy] at hpa
        exact Bool.noConfusion hpa
      rw [List.filter_eq_nil_iff.mpr hnone]

theorem find?_min_of_sorted (q : Team × ℝ → Bool) :
    ∀ l : List (Team × ℝ),
      List.Pairwise (fun a b : Team × ℝ => decide (a.2 ≤ b.2) = true) l →
      ∀ x ∈ l, q x = true → ∃ z, l.find? q = some z ∧ z.2 ≤ x.2 := by
  intro l
  induction l with
  | nil => intro _ x hx; simp at hx
  | cons a t ih =>
    intro hpw x hx hq
    rcases List.pairwise_cons.mp hpw with ⟨ha, ht⟩
    cases hqa : q a with
    | true =>
      refine ⟨a, List.find?_cons_of_pos _ hqa, ?_⟩
      rcases List.mem_cons.mp hx with rfl | hxt
      · exact le_refl _
      · exact of_decide_eq_true (ha x hxt)
    | false =>
      have hxt : x ∈ t := by
        rcases List.mem_cons.mp hx with rfl | hm
        · rw [hq] at hqa; exact Bool.noConfusion hqa
        · exact hm
      obtain ⟨z, hz, hzle⟩ := ih ht x hxt hq
      exact ⟨z, by rw [List.find?_cons_of_neg _ (by simp [hqa])]; exact hz, hzle⟩

theorem scoreEnd_empty (stones : List StoneState) (te : ℤ)
    (h : stones.filter (fun s => s.inPlay) = []) :
    scoreEnd stones te = ⟨0, 0, none⟩ := by
  unfold scoreEnd
  dsimp only
  rw [if_pos (by simpa [List.isEmpty_iff] using h)]

theorem scoreEnd_eval (stones : List StoneState) (te : ℤ) (first : Team × ℝ)
    (rest : List (Team × ℝ))
    (hne : ¬((stones.filter fun s => s.inPlay).isEmpty = true))
    (hfr : (((stones.filter fun s => s.inPlay).map fun s =>
        (s.team, distToTee (teeOf te) s)).mergeSort fun a b =>
        decide (a.2 ≤ b.2)) = first :: rest) :
    scoreEnd stones te =
      { red := if first.1 = Team.red then prefixScore (first :: rest) first.1 else 0
        yellow := if first.1 = Team.yellow then prefixScore (first :: rest) first.1 else 0
        winner := some first.1 } := by
  unfold scoreEnd prefixScore
  dsimp only
  rw [if_neg hne, hfr]

theorem scoreEnd_characterization (stones : List StoneState) (te : ℤ)
    (hne : stones.filter (fun s => s.inPlay) ≠ []) :
    ∃ w : Team,
      (scoreEnd stones te).winner = some w ∧
      (∃ s ∈ stones, s.inPlay = true ∧ s.team = w ∧
        ∀ t ∈ stones, t.inPlay = true →
          distToTee (teeOf te) s ≤ distToTee (teeOf te) t) ∧
      scoreOfTeam (scoreEnd stones te) w =
        ((stones.filter fun s => s.inPlay).filter fun t =>
          decide (t.team = w) &&
          decide (∀ u ∈ stones, u.inPlay = true → u.team ≠ w →
            distToTee (teeOf te) t < distToTee (teeOf te) u)).length ∧
      scoreOfTeam (scoreEnd stones te) (oppositeTeam w) = 0 := by
  have hne2 : ¬((stones.filter fun s => s.inPlay).isEmpty = true) := by
    simpa [List.isEmpty_iff] using hne
  have hperm : List.Perm (((stones.filter fun s => s.inPlay).map fun s =>
      (s.team, distToTee (teeOf te) s)).mergeSort fun a b =>
      decide (a.2 ≤ b.2))
      ((stones.filter fun s => s.inPlay).map fun s =>
      (s.team, distToTee (teeOf te) s)) := List.mergeSort_perm _ _
  have hpw : List.Pairwise (fun a b : Team × ℝ => decide (a.2 ≤ b.2) = true)
      (((stones.filter fun s => s.inPlay).map fun s =>
      (s.team, distToTee (teeOf te) s)).mergeSort fun a b =>
      decide (a.2 ≤ b.2)) :=
    List.sorted_mergeSort
      (fun a b c hab hbc => by
        rw [decide_eq_true_eq] at *
        exact le_trans hab hbc)
      (fun a b => by
        rcases le_total a.2 b.2 with h | h
        · simp [h]
        · simp [h]) _
  have hsne : (((stones.filter fun s => s.inPlay).map fun s =>
      (s.team, distToTee (teeOf te) s)).mergeSort fun a b =>
      decide (a.2 ≤ b.2)) ≠ [] := by
    intro h0
    apply hne
    rw [h0] at hperm
    exact List.map_eq_nil_iff.mp (List.Perm.nil_eq hperm).symm
  obtain ⟨first, rest, hfr⟩ := List.exists_cons_of_ne_nil hsne
  have heval := scoreEnd_eval stones te first rest hne2 hfr
  have hpw' : List.Pairwise (fun a b : Team × ℝ => decide (a.2 ≤ b.2) = true)
      (first :: rest) := hfr ▸ hpw
  have hperm' : List.Perm (first :: rest)
      ((stones.filter fun s => s.inPlay).map fun s =>
      (s.team, distToTee (teeOf te) s)) := hfr ▸ hperm
  -- membership of the image of an in-play stone in the sorted list
  have hmemsorted : ∀ u ∈ stones, u.inPlay = true →
      (u.team, distToTee (teeOf te) u) ∈ first :: rest := by
    intro u hu hup
    apply hperm'.mem_iff.mpr
    exact List.mem_map_of_mem _ (List.mem_filter.mpr ⟨hu, by simpa using hup⟩)
  -- teams: a team different from first.1 is the team the code searches for
  have hother : ∀ tm : Team, tm ≠ first.1 →
      tm = (if first.1 = Team.red then Team.yellow else Team.red) := by
    intro tm htm
    cases hft : first.1 <;> cases htm2 : tm <;> simp_all
  refine ⟨first.1, by rw [heval], ?_, ?_, ?_⟩
  · -- the winner owns a closest in-play stone
    have hfirstmem : first ∈ ((stones.filter fun s => s.inPlay).map fun s =>
        (s.team, distToTee (teeOf te) s)) :=
      hperm'.mem_iff.mp (List.mem_cons_self _ _)
    obtain ⟨s, hsA, hfs⟩ := List.mem_map.mp hfirstmem
    refine ⟨s, (List.mem_filter.mp hsA).1, by simpa using (List.mem_filter.mp hsA).2,
      congrArg Prod.fst hfs, ?_⟩
    intro t ht htp
    have htmem := hmemsorted t ht htp
    have hds : distToTee (teeOf te) s = first.2 := congrArg Prod.snd hfs
    rw [hds]
    rcases List.mem_cons.mp htmem with heq | hrest
    · rw [show distToTee (teeOf te) t = first.2 from congrArg Prod.snd heq]
    · exact of_decide_eq_true ((List.pairwise_cons.mp hpw').1 _ hrest)
  · -- the count of the winning team
    have hcount : prefixScore (first :: rest) first.1 =
        ((stones.filter fun s => s.inPlay).filter fun t =>
          decide (t.team = first.1) &&
          decide (∀ u ∈ stones, u.inPlay = true → u.team ≠ first.1 →
            distToTee (teeOf te) t < distToTee (teeOf te) u)).length := by
      unfold prefixScore
      have himp : List.Pairwise (fun x y : Team × ℝ =>
          (decide (y.1 = first.1) &&
            ltCutoffB y.2 (((first :: rest).find? fun s =>
              decide (s.1 = if first.1 = Team.red then Team.yellow else Team.red)).map
              fun s => s.2)) = true →
          (decide (x.1 = first.1) &&
            ltCutoffB x.2 (((first :: rest).find? fun s =>
              decide (s.1 = if first.1 = Team.red then Team.yellow else Team.red)).map
              fun s => s.2)) = true) (first :: rest) := by
        refine hpw'.imp_of_mem ?_
        intro x y hx hy hr hpy
        have hxy : x.2 ≤ y.2 := of_decide_eq_true hr
        rw [Bool.and_eq_true, decide_eq_true_eq] at hpy
        rcases hpy with ⟨hy1, hy2⟩
        by_cases hx1 : x.1 = first.1
        · rw [Bool.and_eq_true, decide_eq_true_eq]
          refine ⟨hx1, ?_⟩
          cases hfind : ((first :: rest).find? fun s =>
              decide (s.1 = if first.1 = Team.red then Team.yellow else Team.red)) with
          | none => simp [ltCutoffB]
          | some z =>
            rw [hfind] at hy2
            simp only [Option.map_some', ltCutoffB, decide_eq_true_eq] at hy2 ⊢
            exact lt_of_le_of_lt hxy hy2
        · exfalso
          have hqx : (fun s : Team × ℝ =>
              decide (s.1 = if first.1 = Team.red then Team.yellow else Team.red)) x
              = true := by
            rw [decide_eq_true_eq]
            exact hother x.1 hx1
          obtain ⟨z, hz, hzle⟩ := find?_min_of_sorted
            (fun s => decide (s.1 = if first.1 = Team.red then Team.yellow else Team.red))
            (first :: rest) hpw' x hx hqx
          rw [hz] at hy2
          simp only [Option.map_some', ltCutoffB, decide_eq_true_eq] at hy2
          exact absurd hy2 (not_lt.mpr (le_trans hzle hxy))
      rw [takeWhile_length_eq_filter _ _ himp,
        (List.Perm.filter _ hperm').length_eq, List.filter_map, List.length_map]
      apply congrArg List.length
      apply List.filter_congr
      intro t htA
      have htstones : t ∈ stones := (List.mem_filter.mp htA).1
      have htp : t.inPlay = true := by simpa using (List.mem_filter.mp htA).2
      show (decide (t.team = first.1) &&
        ltCutoffB (distToTee (teeOf te) t) _) = _
      have hcut : ltCutoffB (distToTee (teeOf te) t)
          (((first :: rest).find? fun s =>
            decide (s.1 = if first.1 = Team.red then Team.yellow else Team.red)).map
            fun s => s.2) =
          decide (∀ u ∈ stones, u.inPlay = true → u.team ≠ first.1 →
            distToTee (teeOf te) t < distToTee (teeOf te) u) := by
        rw [Bool.eq_iff_iff, decide_eq_true_eq]
        cases hfind : ((first :: rest).find? fun s =>
            decide (s.1 = if first.1 = Team.red then Team.yellow else Team.red)) with
        | none =>
          simp only [Option.map_none', ltCutoffB]
          constructor
          · intro _ u hu hup hut
            exfalso
            have hqfu : (fun s : Team × ℝ =>
                decide (s.1 = if first.1 = Team.red then Team.yellow else Team.red))
                (u.team, distToTee (teeOf te) u) = true := by
              rw [decide_eq_true_eq]
              exact hother u.team hut
            exact (List.find?_eq_none.mp hfind) _ (hmemsorted u hu hup) hqfu
          · intro _
            trivial
        | some z =>
          simp only [Option.map_some', ltCutoffB, decide_eq_true_eq]
          constructor
          · intro hlt u hu hup hut
            have hqfu : (fun s : Team × ℝ =>
                decide (s.1 = if first.1 = Team.red then Team.yellow else Team.red))
                (u.team, distToTee (teeOf te) u) = true := by
              rw [decide_eq_true_eq]
              exact hother u.team hut
            obtain ⟨z', hz', hz'le⟩ := find?_min_of_sorted
              (fun s => decide (s.1 = if first.1 = Team.red then Team.yellow else Team.red))
              (first :: rest) hpw' _ (hmemsorted u hu hup) hqfu
            rw [hfind, Option.some_inj] at hz'
            rw [← hz'] at hz'le
            exact lt_of_lt_of_le hlt hz'le
          · intro hall
            have hqz := List.find?_some hfind
            have hzmem := List.mem_of_find?_eq_some hfind
            obtain ⟨u, huA, hfu⟩ := List.mem_map.mp (hperm'.mem_iff.mp hzmem)
            have hu1 : u ∈ stones := (List.mem_filter.mp huA).1
            have hup : u.inPlay = true := by simpa using (List.mem_filter.mp huA).2
            have huteam : u.team =
                (if first.1 = Team.red then Team.yellow else Team.red) := by
              have h1 := of_decide_eq_true hqz
              rw [← hfu] at h1
              exact h1
            have hut : u.team ≠ first.1 := by
              rw [huteam]
              cases hft : first.1 <;> simp
            have hd := hall u hu1 hup hut
            have hdz : distToTee (teeOf te) u = z.2 := congrArg Prod.snd hfu
            rw [hdz] at hd
            exact hd
      rw [hcut]
    rw [heval]
    cases hft : first.1 with
    | red =>
      rw [hft] at hcount
      simp only [scoreOfTeam, if_pos rfl]
      exact hcount
    | yellow =>
      rw [hft] at hcount
      simp only [scoreOfTeam]
      simpa using hcount
  · rw [heval]
    cases hft : first.1 <;> simp [scoreOfTeam, oppositeTeam, hft]

theorem exampleStones_filter :
    exampleStones.filter (fun s => s.inPlay) = [c3red, c3yellow] := rfl

theorem distToTee_c3red : distToTee (teeOf (-1)) c3red = 0.3 := by
  unfold distToTee teeOf c3red
  dsimp only
  rw [show ((0.3 : ℝ) - 0) ^ 2 + (-TEE_Z - ((-1 : ℤ) : ℝ) * TEE_Z) ^ 2 =
    0.3 ^ 2 by push_cast; ring]
  exact Real.sqrt_sq (by norm_num)

theorem distToTee_c3yellow : distToTee (teeOf (-1)) c3yellow = 0.6 := by
  unfold distToTee teeOf c3yellow
  dsimp only
  rw [show ((0 : ℝ) - 0) ^ 2 + (-TEE_Z + 0.6 - ((-1 : ℤ) : ℝ) * TEE_Z) ^ 2 =
    0.6 ^ 2 by push_cast; ring]
  exact Real.sqrt_sq (by norm_num)

/-- C3: `scoreEnd` scores an end as the spec says.  If no stones are in
play the result is `{red 0, yellow 0, winner none}`.  Otherwise the
winner is the team owning an in-play stone of minimal distance to the
button, the winner scores one point per own in-play stone strictly
closer to the button than every opposing in-play stone, and the other
team scores zero.  In particular the example of the spec — one red stone
at 0.3 m, one yellow at 0.6 m, all others out of play — scores
`{red 1, yellow 0, winner red}`. -/
theorem scoreEnd_spec :
    (∀ (stones : List StoneState) (te : ℤ),
      stones.filter (fun s => s.inPlay) = [] →
      scoreEnd stones te = ⟨0, 0, none⟩) ∧
    (∀ (stones : List StoneState) (te : ℤ),
      stones.filter (fun s => s.inPlay) ≠ [] →
      ∃ w : Team,
        (scoreEnd stones te).winner = some w ∧
        (∃ s ∈ stones, s.inPlay = true ∧ s.team = w ∧
          ∀ t ∈ stones, t.inPlay = true →
            distToTee (teeOf te) s ≤ distToTee (teeOf te) t) ∧
        scoreOfTeam (scoreEnd stones te) w =
          ((stones.filter fun s => s.inPlay).filter fun t =>
            decide (t.team = w) &&
            decide (∀ u ∈ stones, u.inPlay = true → u.team ≠ w →
              distToTee (teeOf te) t < distToTee (teeOf te) u)).length ∧
        scoreOfTeam (scoreEnd stones te) (oppositeTeam w) = 0) ∧
    scoreEnd exampleStones (-1) = ⟨1, 0, some Team.red⟩ := by
  refine ⟨scoreEnd_empty, scoreEnd_characterization, ?_⟩
  obtain ⟨w, hwin, ⟨s, hsmem, hsp, hsteam, hmin⟩, hcnt, hopp⟩ :=
    scoreEnd_characterization exampleStones (-1)
      (by rw [exampleStones_filter]; simp)
  have hw : w = Team.red := by
    simp only [exampleStones, List.mem_cons, List.mem_singleton,
      List.not_mem_nil, or_false] at hsmem
    rcases hsmem with rfl | rfl | rfl
    · exact absurd hsp (by simp [c3out])
    · exact (hsteam.symm).trans rfl
    · exfalso
      have hc := hmin c3red (by simp [exampleStones]) rfl
      rw [distToTee_c3red, distToTee_c3yellow] at hc
      norm_num at hc
  subst hw
  have hcount1 : ((exampleStones.filter fun s => s.inPlay).filter fun t =>
      decide (t.team = Team.red) &&
      decide (∀ u ∈ exampleStones, u.inPlay = true → u.team ≠ Team.red →
        distToTee (teeOf (-1)) t < distToTee (teeOf (-1)) u)).length = 1 := by
    rw [exampleStones_filter]
    have hp1 : (fun t : StoneState => decide (t.team = Team.red) &&
        decide (∀ u ∈ exampleStones, u.inPlay = true → u.team ≠ Team.red →
          distToTee (teeOf (-1)) t < distToTee (teeOf (-1)) u)) c3red = true := by
      show (decide (c3red.team = Team.red) &&
        decide (∀ u ∈ exampleStones, u.inPlay = true → u.team ≠ Team.red →
          distToTee (teeOf (-1)) c3red < distToTee (teeOf (-1)) u)) = true
      rw [Bool.and_eq_true, decide_eq_true_eq, decide_eq_true_eq]
      refine ⟨rfl, ?_⟩
      intro u hu hup hut
      simp only [exampleStones, List.mem_cons, List.mem_singleton,
        List.not_mem_nil, or_false] at hu
      rcases hu with rfl | rfl | rfl
      · exact absurd hup (by simp [c3out])
      · exact absurd rfl hut
      · rw [distToTee_c3red, distToTee_c3yellow]
        norm_num
    have hp2 : (fun t : StoneState => decide (t.team = Team.red) &&
        decide (∀ u ∈ exampleStones, u.inPlay = true → u.team ≠ Team.red →
          distToTee (teeOf (-1)) t < distToTee (teeOf (-1)) u)) c3yellow = false := by
      show (decide (c3yellow.team = Team.red) &&
        decide (∀ u ∈ exampleStones, u.inPlay = true → u.team ≠ Team.red →
          distToTee (teeOf (-1)) c3yellow < distToTee (teeOf (-1)) u)) = false
      rw [show (decide (c3yellow.team = Team.red)) = false by decide,
        Bool.false_and]
    simp [List.filter_cons, hp1, hp2]
  rcases hE : scoreEnd exampleStones (-1) with ⟨r, y, wn⟩
  rw [hE] at hwin hcnt hopp
  have hr : r = 1 := by
    have h1 : r = ((exampleStones.filter fun s => s.inPlay).filter fun t =>
        decide (t.team = Team.red) &&
        decide (∀ u ∈ exampleStones, u.inPlay = true → u.team ≠ Team.red →
          distToTee (teeOf (-1)) t < distToTee (teeOf (-1)) u)).length := hcnt
    exact h1.trans hcount1
  have hy : y = 0 := hopp
  have hwn : wn = some Team.red := hwin
  rw [hr, hy, hwn]

/-! ## C7 -/

/-- C7: two equal-mass stones in contact along the x-axis line of
centers, both spinless, approaching head-on with equal and opposite
velocities of magnitude `v`, leave collision resolution moving at speed
`COLLISION_RESTITUTION * v = 0.85 v` each, directions reversed, spins
still zero. -/
theorem head_on_collision (a b : StoneState) (v : ℝ) (hvpos : 0 < v)
    (hz : a.pos.z = b.pos.z)
    (hlo : 1e-8 ≤ b.pos.x - a.pos.x)
    (hhi : b.pos.x - a.pos.x < CONTACT_DIST)
    (hva : a.vel = ⟨v, 0⟩) (hvb : b.vel = ⟨-v, 0⟩)
    (hoa : a.omega = 0) (hob : b.omega = 0) :
    (resolveStoneStone a b).1.vel = ⟨-(COLLISION_RESTITUTION * v), 0⟩ ∧
    (resolveStoneStone a b).2.vel = ⟨COLLISION_RESTITUTION * v, 0⟩ ∧
    (resolveStoneStone a b).1.omega = 0 ∧
    (resolveStoneStone a b).2.omega = 0 := by
  have hdx : (0 : ℝ) < b.pos.x - a.pos.x :=
    lt_of_lt_of_le (by norm_num) hlo
  have hdz : b.pos.z - a.pos.z = 0 := by rw [hz]; ring
  have hdist0 : Real.sqrt ((b.pos.x - a.pos.x) * (b.pos.x - a.pos.x) +
      (0 : ℝ) * 0) = b.pos.x - a.pos.x := by
    rw [show (b.pos.x - a.pos.x) * (b.pos.x - a.pos.x) + (0 : ℝ) * 0 =
      (b.pos.x - a.pos.x) ^ 2 by ring]
    exact Real.sqrt_sq hdx.le
  have hguard : ¬(b.pos.x - a.pos.x ≥ CONTACT_DIST ∨
      b.pos.x - a.pos.x < 1e-8) := by
    push_neg
    exact ⟨hhi, hlo⟩
  have happ : ¬((-v - v) * 1 + ((0 : ℝ) - 0) * 0 > 0) := by
    intro hcon
    nlinarith
  unfold resolveStoneStone
  rw [hva, hvb, hoa, hob]
  dsimp only
  rw [hdz, hdist0, div_self (ne_of_gt hdx), zero_div, if_neg hguard,
    if_neg happ]
  have hjn0 : (0 : ℝ) ≤ |(-(1 + COLLISION_RESTITUTION) *
      ((-v - v) * 1 + ((0 : ℝ) - 0) * 0)) /
      (1 / STONE_MASS + 1 / STONE_MASS)| * COLLISION_TANGENTIAL_FRICTION := by
    unfold COLLISION_TANGENTIAL_FRICTION
    positivity
  have harg : -(((-v - v) * -(0 : ℝ) + ((0 : ℝ) - 0) * 1) +
      (0 : ℝ) * STONE_RADIUS + -(0 : ℝ) * STONE_RADIUS) * STONE_MASS * 0.5 =
      0 := by ring
  rw [harg, min_eq_right hjn0, max_eq_right (neg_nonpos.mpr hjn0)]
  refine ⟨?_, ?_, ?_, ?_⟩
  · rw [(positionalCorrection_vel _ _ _ _ _).1]
    dsimp only
    rw [Vec2.mk.injEq]
    constructor
    · field_simp [STONE_MASS, COLLISION_RESTITUTION]
      ring
    · ring
  · rw [(positionalCorrection_vel _ _ _ _ _).2]
    dsimp only
    rw [Vec2.mk.injEq]
    constructor
    · field_simp [STONE_MASS, COLLISION_RESTITUTION]
      ring
    · ring
  · rw [(positionalCorrection_omega _ _ _ _ _).1]
    dsimp only
    ring
  · rw [(positionalCorrection_omega _ _ _ _ _).2]
    dsimp only
    ring

/-- C7 witness: the head-on bounce evaluated for two concrete stones
0.2 m apart closing at 1 m/s each. -/
theorem head_on_collision_witness :
    (resolveStoneStone headOnA headOnB).1.vel =
      ⟨-(COLLISION_RESTITUTION * 1), 0⟩ ∧
    (resolveStoneStone headOnA headOnB).2.vel =
      ⟨COLLISION_RESTITUTION * 1, 0⟩ ∧
    (resolveStoneStone headOnA headOnB).1.omega = 0 ∧
    (resolveStoneStone headOnA headOnB).2.omega = 0 :=
  head_on_collision headOnA headOnB 1 (by norm_num) rfl
    (by norm_num [headOnA, headOnB])
    (by norm_num [headOnA, headOnB, CONTACT_DIST, STONE_RADIUS])
    rfl rfl rfl rfl

/-- C6 witness: the clamp applied to a concrete stone moving at
0.002 m/s with spin 0.005 rad/s. -/
theorem settle_clamp_witness :
    integrateStone DEFAULT_ICE_PARAMS false slowSettledStone =
      { slowSettledStone with vel := ⟨0, 0⟩, omega := 0 } ∧
    (∀ t ∈ stepPhysics [slowSettledStone] DEFAULT_ICE_PARAMS false,
      t.vel = ⟨0, 0⟩ ∧ t.omega = 0) ∧
    (∀ t ∈ stepPhysics (stepPhysics [slowSettledStone] DEFAULT_ICE_PARAMS false)
        DEFAULT_ICE_PARAMS false, t.vel = ⟨0, 0⟩ ∧ t.omega = 0) :=
  settle_clamp slowSettledStone DEFAULT_ICE_PARAMS false rfl
    (by
      show Real.sqrt ((0.002 : ℝ) * 0.002 + 0 * 0) < SETTLE_VEL_THRESHOLD
      rw [show (0.002 : ℝ) * 0.002 + 0 * 0 = 0.002 ^ 2 by norm_num,
        Real.sqrt_sq (by norm_num : (0 : ℝ) ≤ 0.002)]
      norm_num [SETTLE_VEL_THRESHOLD])
    (by
      show |(0.005 : ℝ)| < SETTLE_OMEGA_THRESHOLD
      rw [abs_of_pos (by norm_num : (0 : ℝ) < 0.005)]
      norm_num [SETTLE_OMEGA_THRESHOLD])

/-! ## C1 -/

theorem resolvePairAt_length (stones : List StoneState) (ij : ℕ × ℕ) :
    (resolvePairAt stones ij).length = stones.length := by
  unfold resolvePairAt
  cases stones[ij.1]? <;> cases stones[ij.2]? <;> simp

theorem foldl_resolvePairAt_length (ps : List (ℕ × ℕ)) (stones : List StoneState) :
    (ps.foldl resolvePairAt stones).length = stones.length := by
  induction ps generalizing stones with
  | nil => rfl
  | cons p rest ih => rw [List.foldl_cons, ih, resolvePairAt_length]

theorem foldl_wallAt_length (idxs : List ℕ) (stones : List StoneState) :
    (idxs.foldl wallAt stones).length = stones.length := by
  induction idxs generalizing stones with
  | nil => rfl
  | cons j rest ih => rw [List.foldl_cons, ih, wallAt_length]

theorem resolveCollisions_length (stones : List StoneState) :
    (resolveCollisions stones).length = stones.length := by
  unfold resolveCollisions
  rw [foldl_wallAt_length, foldl_resolvePairAt_length]

theorem stepPhysics_length (stones : List StoneState) (ice : IceParams)
    (sweeping : Bool) :
    (stepPhysics stones ice sweeping).length = stones.length := by
  unfold stepPhysics
  rw [resolveCollisions_length, List.length_map]

theorem applyRules_length (stones : List StoneState) (d te : ℤ) :
    (applyRules stones d te).length = stones.length := by
  unfold applyRules
  rw [List.length_map]

theorem stepOnce_length (ice : IceParams) (sweeping : Bool) (d te : ℤ)
    (stones : List StoneState) :
    (stepOnce ice sweeping d te stones).length = stones.length := by
  unfold stepOnce
  rw [applyRules_length, stepPhysics_length]

theorem stepOnce_iterate_length (ice : IceParams) (sweeping : Bool) (d te : ℤ)
    (n : ℕ) (stones : List StoneState) :
    ((stepOnce ice sweeping d te)^[n] stones).length = stones.length := by
  induction n generalizing stones with
  | zero => rfl
  | succ n ih =>
    rw [Function.iterate_succ_apply, ih, stepOnce_length]

theorem hogCheck_length (stones : List StoneState) (d te : ℤ) :
    (hogCheck stones d te).length = stones.length := by
  unfold hogCheck
  split
  · cases stones[d.toNat]? with
    | none => rfl
    | some delivered =>
      dsimp only
      split
      · rw [List.length_set]
      · rfl
  · rfl

theorem update_stones_length (w : PhysicsWorld) (e : ℝ) :
    ((w.update e).2).stones.length = w.stones.length := by
  unfold PhysicsWorld.update
  dsimp only
  split
  · exact stepOnce_iterate_length ..
  · rw [hogCheck_length, stepOnce_iterate_length]

theorem mem_hogCheck {stones : List StoneState} {d te : ℤ} {s : StoneState}
    (h : s ∈ hogCheck stones d te) : s ∈ stones ∨ s.inPlay = false := by
  unfold hogCheck at h
  split at h
  · cases hdel : stones[d.toNat]? with
    | none => rw [hdel] at h; exact Or.inl h
    | some delivered =>
      rw [hdel] at h
      dsimp only at h
      split at h
      · rcases List.mem_or_eq_of_mem_set h with hmem | rfl
        · exact Or.inl hmem
        · exact Or.inr rfl
      · exact Or.inl h
  · exact Or.inl h

theorem update_false_not_simulating {w : PhysicsWorld} {e : ℝ}
    {w' : PhysicsWorld} (h : w.update e = (false, w')) :
    ¬ w'.isSimulating := by
  unfold PhysicsWorld.update at h
  dsimp only at h
  split at h
  · exact absurd (congrArg Prod.fst h) (by simp)
  · next hS =>
    have hw' := congrArg Prod.snd h
    dsimp only at hw'
    rw [← hw']
    rintro ⟨s, hmem, hp, hmov⟩
    rcases mem_hogCheck hmem with hmem' | hfalse
    · exact hS ⟨s, hmem', hp, hmov⟩
    · rw [hfalse] at hp
      exact Bool.noConfusion hp

theorem runUntilSettled_succ (w : PhysicsWorld) (fuel : ℕ) :
    w.runUntilSettled (fuel + 1) =
      (if (w.update PHYSICS_DT).1 then
        (((w.update PHYSICS_DT).2.runUntilSettled fuel).1 + 1,
         ((w.update PHYSICS_DT).2.runUntilSettled fuel).2)
      else (1, (w.update PHYSICS_DT).2)) := rfl

theorem runUntilSettled_early_exit :
    ∀ (fuel : ℕ) (w : PhysicsWorld),
      (w.runUntilSettled fuel).1 < fuel →
      ¬ (w.runUntilSettled fuel).2.isSimulating := by
  intro fuel
  induction fuel with
  | zero => intro w h; exact absurd h (Nat.not_lt_zero _)
  | succ fuel ih =>
    intro w h
    rw [runUntilSettled_succ] at h ⊢
    by_cases hr : (w.update PHYSICS_DT).1 = true
    · rw [if_pos hr] at h ⊢
      exact ih _ (by omega)
    · rw [if_neg hr] at h ⊢
      have hfalse : (w.update PHYSICS_DT).1 = false := by
        cases hb : (w.update PHYSICS_DT).1
        · rfl
        · exact absurd hb hr
      have hupd : w.update PHYSICS_DT = (false, (w.update PHYSICS_DT).2) := by
        rw [← hfalse]
      exact update_false_not_simulating hupd

theorem runUntilSettled_stones_length :
    ∀ (fuel : ℕ) (w : PhysicsWorld),
      ((w.runUntilSettled fuel).2).stones.length = w.stones.length := by
  intro fuel
  induction fuel with
  | zero => intro w; rfl
  | succ fuel ih =>
    intro w
    rw [runUntilSettled_succ]
    by_cases hr : (w.update PHYSICS_DT).1 = true
    · rw [if_pos hr]
      rw [ih, update_stones_length]
    · rw [if_neg hr]
      exact update_stones_length ..

theorem deliverStone_length (w : PhysicsWorld) (team : Team)
    (release : ShotRelease) (k : ℕ) :
    (w.deliverStone team release k).stones.length = w.stones.length + 1 := by
  unfold PhysicsWorld.deliverStone
  dsimp only
  rw [List.length_append, List.length_singleton]

/-! ## C1 -/

theorem sqrt_slow_speed :
    Real.sqrt ((0.0055 : ℝ) * 0.0055 + 0 * 0) = 0.0055 := by
  have h : ((0.0055 : ℝ) * 0.0055 + 0 * 0) = 0.0055 ^ 2 := by norm_num
  rw [h]
  exact Real.sqrt_sq (by norm_num)

theorem mu_slow : mu 0.0055 DEFAULT_ICE_PARAMS false = 0.06 := by
  norm_num [mu, DEFAULT_ICE_PARAMS]

theorem spinDecay_zero (speed : ℝ) (ice : IceParams) :
    spinDecay 0 speed ice = 0 := by
  norm_num [spinDecay]

theorem vecLen_slow : vecLen slowStone.vel = 0.0055 := by
  show Real.sqrt ((0.0055 : ℝ) * 0.0055 + 0 * 0) = 0.0055
  exact sqrt_slow_speed

theorem computeIceForces_slowStone :
    computeIceForces slowStone DEFAULT_ICE_PARAMS false =
      { ax := -0.5886, az := 0, alphaOmega := 0 } := by
  unfold computeIceForces
  dsimp only
  rw [vecLen_slow]
  simp only [slowStone]
  rw [mu_slow, spinDecay_zero]
  norm_num [GRAVITY]

theorem integrate_slowStone :
    integrateStone DEFAULT_ICE_PARAMS false slowStone = slowMovedStone := by
  have hspeed : Real.sqrt (slowStone.vel.x * slowStone.vel.x +
      slowStone.vel.z * slowStone.vel.z) = 0.0055 := by
    show Real.sqrt ((0.0055 : ℝ) * 0.0055 + 0 * 0) = 0.0055
    exact sqrt_slow_speed
  unfold integrateStone
  dsimp only
  rw [hspeed, computeIceForces_slowStone]
  simp only [slowStone]
  have hnew : Real.sqrt ((0.0055 + -0.5886 * PHYSICS_DT) * (0.0055 + -0.5886 * PHYSICS_DT) +
      (0 + 0 * PHYSICS_DT) * (0 + 0 * PHYSICS_DT)) = 0.000595 := by
    have h : ((0.0055 : ℝ) + -0.5886 * PHYSICS_DT) * (0.0055 + -0.5886 * PHYSICS_DT) +
        (0 + 0 * PHYSICS_DT) * (0 + 0 * PHYSICS_DT) = 0.000595 ^ 2 := by
      norm_num [PHYSICS_DT]
    rw [h]
    exact Real.sqrt_sq (by norm_num)
  rw [hnew]
  norm_num [PHYSICS_DT, SETTLE_VEL_THRESHOLD, SETTLE_OMEGA_THRESHOLD, slowMovedStone, TEE_Z, FT]

theorem integrate_thrownStone :
    integrateStone DEFAULT_ICE_PARAMS false thrownStone = thrownStone := by
  have hspeed : Real.sqrt (thrownStone.vel.x * thrownStone.vel.x +
      thrownStone.vel.z * thrownStone.vel.z) = 0 := by
    show Real.sqrt ((0 : ℝ) * 0 + 0 * 0) = 0
    norm_num
  unfold integrateStone
  dsimp only
  rw [hspeed]
  norm_num [SETTLE_VEL_THRESHOLD, SETTLE_OMEGA_THRESHOLD, thrownStone]

theorem resolve_slow_thrown :
    resolveStoneStone slowMovedStone thrownStone = (slowMovedStone, thrownStone) := by
  unfold resolveStoneStone
  dsimp only
  simp only [slowMovedStone, thrownStone]
  have harg : CONTACT_DIST ^ 2 ≤ ((0 : ℝ) - 119 / 24000000) * (0 - 119 / 24000000) +
      (HACK_Z - -TEE_Z) * (HACK_Z - -TEE_Z) := by
    norm_num [CONTACT_DIST, STONE_RADIUS, HACK_Z, TEE_Z, FT]
  rw [if_pos (Or.inl (Real.le_sqrt_of_sq_le harg))]

theorem resolveWall_slowMoved :
    resolveWall slowMovedStone (SHEET_WIDTH / 2) = slowMovedStone := by
  have h : ¬ (slowMovedStone.pos.x - STONE_RADIUS < -(SHEET_WIDTH / 2) ∨
      slowMovedStone.pos.x + STONE_RADIUS > SHEET_WIDTH / 2) := by
    norm_num [slowMovedStone, STONE_RADIUS, SHEET_WIDTH, FT]
  unfold resolveWall
  rw [if_neg h]

theorem resolveWall_thrown :
    resolveWall thrownStone (SHEET_WIDTH / 2) = thrownStone := by
  have h : ¬ (thrownStone.pos.x - STONE_RADIUS < -(SHEET_WIDTH / 2) ∨
      thrownStone.pos.x + STONE_RADIUS > SHEET_WIDTH / 2) := by
    norm_num [thrownStone, STONE_RADIUS, SHEET_WIDTH, FT]
  unfold resolveWall
  rw [if_neg h]

theorem resolveCollisions_slow :
    resolveCollisions [slowMovedStone, thrownStone] = [slowMovedStone, thrownStone] := by
  unfold resolveCollisions
  dsimp only
  have hact : activeIndices [slowMovedStone, thrownStone] = [0, 1] := rfl
  rw [hact]
  have hpairs : pairsOf [0, 1] = [(0, 1)] := rfl
  rw [hpairs]
  have hfold1 : List.foldl resolvePairAt [slowMovedStone, thrownStone] [(0, 1)] =
      resolvePairAt [slowMovedStone, thrownStone] (0, 1) := rfl
  rw [hfold1]
  have hpair : resolvePairAt [slowMovedStone, thrownStone] (0, 1) =
      [slowMovedStone, thrownStone] := by
    show ([slowMovedStone, thrownStone].set 0
        (resolveStoneStone slowMovedStone thrownStone).1).set 1
        (resolveStoneStone slowMovedStone thrownStone).2 = [slowMovedStone, thrownStone]
    rw [resolve_slow_thrown]
    rfl
  rw [hpair]
  have hfold2 : List.foldl wallAt [slowMovedStone, thrownStone] [0, 1] =
      wallAt (wallAt [slowMovedStone, thrownStone] 0) 1 := rfl
  rw [hfold2]
  have hw0 : wallAt [slowMovedStone, thrownStone] 0 = [slowMovedStone, thrownStone] := by
    show [slowMovedStone, thrownStone].set 0 (resolveWall slowMovedStone (SHEET_WIDTH / 2)) =
      [slowMovedStone, thrownStone]
    rw [resolveWall_slowMoved]
    rfl
  rw [hw0]
  show [slowMovedStone, thrownStone].set 1 (resolveWall thrownStone (SHEET_WIDTH / 2)) =
    [slowMovedStone, thrownStone]
  rw [resolveWall_thrown]
  rfl

theorem applyRules_slow :
    applyRules [slowMovedStone, thrownStone] 1 (-1) = [slowMovedStone, thrownStone] := by
  unfold applyRules
  norm_num [slowMovedStone, thrownStone, HALF_WIDTH, SHEET_WIDTH, BACK_LINE_Z, TEE_Z,
    STONE_RADIUS, FT, HACK_Z, abs_le]

theorem stepOnce_slow :
    stepOnce DEFAULT_ICE_PARAMS false 1 (-1) [slowStone, thrownStone] =
      [slowMovedStone, thrownStone] := by
  unfold stepOnce stepPhysics
  rw [List.map_cons, List.map_cons, List.map_nil, integrate_slowStone,
    integrate_thrownStone, resolveCollisions_slow, applyRules_slow]

theorem slow_pair_not_simulating {w : PhysicsWorld}
    (h : w.stones = [slowMovedStone, thrownStone]) : ¬ w.isSimulating := by
  rintro ⟨s, hmem, hp, hmov⟩
  rw [h] at hmem
  simp only [List.mem_cons, List.not_mem_nil, or_false] at hmem
  rcases hmem with rfl | rfl <;>
    rcases hmov with h2 | h2 | h2 <;>
      norm_num [slowMovedStone, thrownStone, lt_abs] at h2

theorem update_slowThrownWorld :
    slowThrownWorld.update PHYSICS_DT = (false, slowFinalWorld) := by
  have hn : slowThrownWorld.subStepCount PHYSICS_DT = 1 := by
    unfold PhysicsWorld.subStepCount PhysicsWorld.cappedAcc slowThrownWorld PHYSICS_DT
    norm_num [Nat.floor_one]
  unfold PhysicsWorld.update
  dsimp only
  rw [hn, Function.iterate_one]
  have hstep : stepOnce slowThrownWorld.ice slowThrownWorld.sweeping
      slowThrownWorld.deliveredStoneIndex slowThrownWorld.targetEnd slowThrownWorld.stones =
      [slowMovedStone, thrownStone] := by
    show stepOnce DEFAULT_ICE_PARAMS false 1 (-1) [slowStone, thrownStone] =
      [slowMovedStone, thrownStone]
    exact stepOnce_slow
  rw [hstep]
  rw [if_neg]
  rotate_left
  · exact slow_pair_not_simulating rfl
  have hhog : hogCheck [slowMovedStone, thrownStone] slowThrownWorld.deliveredStoneIndex
      slowThrownWorld.targetEnd = [slowMovedStone, { thrownStone with inPlay := false }] := by
    show hogCheck [slowMovedStone, thrownStone] 1 (-1) =
      [slowMovedStone, { thrownStone with inPlay := false }]
    unfold hogCheck
    rw [if_pos (by norm_num)]
    show (if thrownStone.inPlay = true ∧ checkHogLineViolation thrownStone (-1) then
        [slowMovedStone, thrownStone].set (1 : ℤ).toNat { thrownStone with inPlay := false }
      else [slowMovedStone, thrownStone]) =
      [slowMovedStone, { thrownStone with inPlay := false }]
    have hviol : checkHogLineViolation thrownStone (-1) := by
      norm_num [checkHogLineViolation, thrownStone, HOG_Z, HACK_Z, TEE_Z, FT, STONE_RADIUS]
    rw [if_pos ⟨rfl, hviol⟩]
    rfl
  rw [hhog]
  have hacc : slowThrownWorld.cappedAcc PHYSICS_DT - ((1 : ℕ) : ℝ) * PHYSICS_DT = 0 := by
    unfold PhysicsWorld.cappedAcc slowThrownWorld PHYSICS_DT
    norm_num
  rw [hacc]
  rfl

theorem runUntilSettled_slow :
    slowThrownWorld.runUntilSettled 2 = (1, slowFinalWorld) := by
  show slowThrownWorld.runUntilSettled (1 + 1) = (1, slowFinalWorld)
  rw [runUntilSettled_succ, update_slowThrownWorld]
  simp

theorem throwStone_aiming {c : GameController} (h : c.phase = GamePhase.AIMING)
    (release : ShotRelease) :
    c.throwStone release =
      { c with
        world := c.world.deliverStone c.currentTeam release c.deliveryCount,
        deliveryCount := c.deliveryCount + 1, phase := GamePhase.DELIVERING } := by
  unfold GameController.throwStone
  rw [if_neg (not_not_intro h)]

theorem slow_throwStone :
    slowGame.controller.throwStone releaseZero =
      { phase := GamePhase.DELIVERING, world := slowThrownWorld,
        scoreHistory := [], totalScore := ⟨0, 0⟩, currentEnd := 1,
        hammerTeam := Team.yellow, deliveryCount := 1 } := by
  rw [throwStone_aiming rfl]
  show ({ slowController with
      world := slowController.world.deliverStone slowController.currentTeam releaseZero
        slowController.deliveryCount,
      deliveryCount := slowController.deliveryCount + 1,
      phase := GamePhase.DELIVERING } : GameController) = _
  simp only [slowController, GameController.currentTeam, PhysicsWorld.deliverStone,
    releaseZero, slowThrownWorld, thrownStone, slowStone]
  norm_num [HACK_Z, TEE_Z, FT]

theorem slowFinal_not_simulating : ¬ slowFinalWorld.isSimulating := by
  rintro ⟨s, hmem, hp, hmov⟩
  simp only [slowFinalWorld, List.mem_cons, List.not_mem_nil, or_false] at hmem
  rcases hmem with rfl | rfl
  · rcases hmov with h2 | h2 | h2 <;> norm_num [slowMovedStone, lt_abs] at h2
  · exact Bool.noConfusion hp

theorem slow_throwAndSettle :
    slowGame.throwAndSettle releaseZero 2 = Except.ok
      ({ steps := 1,
         finalState := getState
           { phase := GamePhase.AIMING, world := slowFinalWorld, scoreHistory := [],
             totalScore := ⟨0, 0⟩, currentEnd := 1, hammerTeam := Team.yellow,
             deliveryCount := 1 },
         score := none },
       ⟨{ phase := GamePhase.AIMING, world := slowFinalWorld, scoreHistory := [],
          totalScore := ⟨0, 0⟩, currentEnd := 1, hammerTeam := Team.yellow,
          deliveryCount := 1 }⟩) := by
  unfold HeadlessGame.throwAndSettle
  rw [if_neg (not_not_intro (show slowGame.controller.phase = GamePhase.AIMING from rfl))]
  rw [slow_throwStone]
  dsimp only
  rw [runUntilSettled_slow]
  dsimp only
  rw [if_pos slowFinal_not_simulating]
  rw [if_neg (by norm_num : ¬ (16 ≤ 1))]
  rw [if_neg (by simp)]

theorem thrownWorld_not_simulating : ¬ thrownWorld.isSimulating := by
  rintro ⟨s, hmem, hp, hmov⟩
  simp only [thrownWorld, List.mem_cons, List.not_mem_nil, or_false] at hmem
  rcases hmem with rfl
  rcases hmov with h2 | h2 | h2 <;> norm_num [thrownStone] at h2

theorem negAcc_throwStone :
    negAccGame.controller.throwStone releaseZero =
      { phase := GamePhase.DELIVERING, world := thrownWorld, scoreHistory := [],
        totalScore := ⟨0, 0⟩, currentEnd := 1, hammerTeam := Team.yellow,
        deliveryCount := 1 } := by
  rw [throwStone_aiming rfl]
  show ({ negAccController with
      world := negAccController.world.deliverStone negAccController.currentTeam releaseZero
        negAccController.deliveryCount,
      deliveryCount := negAccController.deliveryCount + 1,
      phase := GamePhase.DELIVERING } : GameController) = _
  simp only [negAccController, GameController.currentTeam, PhysicsWorld.deliverStone,
    releaseZero, thrownWorld, thrownStone]
  norm_num [HACK_Z, TEE_Z, FT]

theorem negAcc_steps :
    ((negAccGame.controller.throwStone releaseZero).world.runUntilSettled 2).1 < 2 := by
  rw [negAcc_throwStone]
  show (thrownWorld.runUntilSettled (1 + 1)).1 < 2
  have hn : thrownWorld.subStepCount PHYSICS_DT = 0 := by
    unfold PhysicsWorld.subStepCount PhysicsWorld.cappedAcc thrownWorld PHYSICS_DT
    rw [if_neg (by norm_num)]
    rw [Nat.floor_eq_zero]
    norm_num
  have hupd := update_no_steps hn thrownWorld_not_simulating
  rw [runUntilSettled_succ, hupd]
  simp

/-- C1 (amended): a `throwAndSettle` call in the `AIMING` phase, given enough
fuel for the settling loop to exit on its own, succeeds: it delivers the stone
(the world gains exactly one stone), runs the physics until the world reports
not-simulating, and returns the number of update steps taken together with a
final state in which every in-play stone is below the engine's is-moving
thresholds: `|vel.x| ≤ 0.001`, `|vel.z| ≤ 0.001` and `|omega| ≤ 0.01`.
Velocities and spin need not be exactly zero (see the counterexample). -/
theorem throwAndSettle_settles (g : HeadlessGame) (release : ShotRelease) (fuel : ℕ)
    (hphase : g.controller.phase = GamePhase.AIMING)
    (hsteps : ((g.controller.throwStone release).world.runUntilSettled fuel).1 < fuel) :
    ∃ (res : ThrowResult) (gf : HeadlessGame),
      g.throwAndSettle release fuel = Except.ok (res, gf) ∧
      res.steps = ((g.controller.throwStone release).world.runUntilSettled fuel).1 ∧
      gf.controller.world.stones.length = g.controller.world.stones.length + 1 ∧
      ∀ s ∈ gf.controller.world.stones, s.inPlay = true →
        |s.vel.x| ≤ 0.001 ∧ |s.vel.z| ≤ 0.001 ∧ |s.omega| ≤ 0.01 := by
  have hnotsim := runUntilSettled_early_exit fuel
    (g.controller.throwStone release).world hsteps
  have hlen : (((g.controller.throwStone release).world.runUntilSettled
      fuel).2).stones.length = g.controller.world.stones.length + 1 := by
    rw [runUntilSettled_stones_length, throwStone_aiming hphase]
    exact deliverStone_length ..
  have hquiet : ∀ s ∈ (((g.controller.throwStone release).world.runUntilSettled
      fuel).2).stones, s.inPlay = true →
      |s.vel.x| ≤ 0.001 ∧ |s.vel.z| ≤ 0.001 ∧ |s.omega| ≤ 0.01 := by
    intro s hmem hp
    have h2 : ¬ (|s.vel.x| > 0.001 ∨ |s.vel.z| > 0.001 ∨ |s.omega| > 0.01) :=
      fun hcon => hnotsim ⟨s, hmem, hp, hcon⟩
    push_neg at h2
    exact h2
  unfold HeadlessGame.throwAndSettle
  rw [if_neg (not_not_intro hphase)]
  dsimp only
  refine ⟨_, _, rfl, rfl, ?_, ?_⟩
  · repeat' split
    all_goals exact hlen
  · repeat' split
    all_goals exact hquiet

/-- C1 witness: the amended theorem applied to a concrete aiming game (empty
world, negative accumulator) with the all-zero release and fuel 2: the loop
exits after one step. -/
theorem throwAndSettle_settles_witness :
    negAccGame.controller.phase = GamePhase.AIMING ∧
    ((negAccGame.controller.throwStone releaseZero).world.runUntilSettled 2).1 < 2 ∧
    (∃ (res : ThrowResult) (gf : HeadlessGame),
      negAccGame.throwAndSettle releaseZero 2 = Except.ok (res, gf) ∧
      res.steps = ((negAccGame.controller.throwStone releaseZero).world.runUntilSettled 2).1 ∧
      gf.controller.world.stones.length = negAccGame.controller.world.stones.length + 1 ∧
      ∀ s ∈ gf.controller.world.stones, s.inPlay = true →
        |s.vel.x| ≤ 0.001 ∧ |s.vel.z| ≤ 0.001 ∧ |s.omega| ≤ 0.01) :=
  ⟨rfl, negAcc_steps, throwAndSettle_settles negAccGame releaseZero 2 rfl negAcc_steps⟩

/-- C1 counterexample: a stone resting near the button at 0.0055 m/s is above
the settle-clamp threshold, so one physics step applies friction and leaves it
at 0.000595 m/s — below the is-moving threshold, so the world settles, yet the
returned final state holds an in-play stone with nonzero velocity,
contradicting the claim that no in-play stone has nonzero velocity or spin. -/
theorem throwAndSettle_nonzero_velocity_counterexample :
    slowGame.controller.phase = GamePhase.AIMING ∧
    (∃ res gf, slowGame.throwAndSettle releaseZero 2 = Except.ok (res, gf) ∧
      ¬ gf.controller.world.isSimulating ∧
      ∃ s ∈ gf.controller.world.stones, s.inPlay = true ∧ s.vel.x ≠ 0) := by
  refine ⟨rfl, _, _, slow_throwAndSettle, slowFinal_not_simulating,
    slowMovedStone, ?_, rfl, ?_⟩
  · show slowMovedStone ∈ [slowMovedStone, { thrownStone with inPlay := false }]
    exact List.mem_cons_self _ _
  · norm_num [slowMovedStone]

end

end CurlingSim
